import Mathlib

/-!
# Verification of the sandboxed SQL execution and session-isolation engine

A shallow embedding, in Lean 4, of the core of the backend under
`backend/app`: the canonicalizer/hasher (`answer_validator.py`), the
read-only query sandbox (`query_executor.py`), the read-write lab executor
(`lab_query_executor.py`), the database lifecycle manager
(`db_generator.py`, `lab_db_manager.py`) and the session reaper
(`lab_cleanup.py`).  Pure Python functions become Lean functions; the
filesystem, the SQLite backend and the worker threads are modelled by
explicit oracles describing their outcomes, so that every code path of the
Python source is represented.

Scalar values are restricted to the SQLite types surfaced by the Python
driver as `None`, `int`, `str` and `bytes`; `REAL` columns (Python
`float`) are outside the model, since floating-point formatting is not
representable here.
-/

/-! ## Values

A cell value as surfaced by the `sqlite3` driver. -/

inductive PyVal where
  | vNull : PyVal
  | vInt : Int → PyVal
  | vStr : String → PyVal
  | vBlob : List Nat → PyVal
  deriving DecidableEq

/-- A normalized cell value, after `normalize_results` has processed it:
`None` stays `None`, numbers stay numbers, `bytes` were decoded to text and
other values were stringified and stripped. -/
inductive NormVal where
  | nNull : NormVal
  | nInt : Int → NormVal
  | nStr : String → NormVal
  deriving DecidableEq

/-! ## Python string primitives used by the source

`str.strip()`, `str.upper()` (ASCII fragment), `str.startswith`, the `in`
substring test, and strict UTF-8 decoding of `bytes`. -/

/-- Python `str.isspace` / the character set stripped by `str.strip()`:
the Unicode whitespace code points. -/
def pyIsSpace (c : Char) : Bool :=
  let n := c.toNat
  (0x09 ≤ n && n ≤ 0x0d) || (0x1c ≤ n && n ≤ 0x1f) || n == 0x20 ||
  n == 0x85 || n == 0xa0 || n == 0x1680 || (0x2000 ≤ n && n ≤ 0x200a) ||
  n == 0x2028 || n == 0x2029 || n == 0x202f || n == 0x205f || n == 0x3000

/-- Python `str.strip()` on a character list. -/
def pyStripChars (cs : List Char) : List Char :=
  ((cs.dropWhile pyIsSpace).reverse.dropWhile pyIsSpace).reverse

/-- Python `str.strip()`. -/
def pyStrip (s : String) : String := ⟨pyStripChars s.data⟩

/-- Python `str.upper()` on the ASCII fragment (the source only compares
against ASCII SQL keywords). -/
def asciiUpperChar (c : Char) : Char :=
  if 0x61 ≤ c.toNat && c.toNat ≤ 0x7a then Char.ofNat (c.toNat - 32) else c

/-- ASCII `str.upper()`. -/
def asciiUpper (s : String) : String := ⟨s.data.map asciiUpperChar⟩

/-- Python `needle in hay` substring test, on character lists. -/
def hasSub (hay needle : List Char) : Bool :=
  needle.isPrefixOf hay ||
    match hay with
    | [] => false
    | _ :: t => hasSub t needle

/-- Python `s.startswith(p)`. -/
def strStartsWith (s p : String) : Bool := p.data.isPrefixOf s.data

/-- Decode one UTF-8 scalar: given the lead byte and the remaining bytes,
return the code point and how many continuation bytes were consumed, or
`none` on malformed input (overlong forms, surrogates and out-of-range
values rejected, as Python's strict `bytes.decode("utf-8")` does). -/
def utf8DecodeOne (b : Nat) (rest : List Nat) : Option (Nat × Nat) :=
  if b < 0x80 then some (b, 0)
  else if 0xc2 ≤ b && b ≤ 0xdf then
    match rest with
    | b2 :: _ =>
      if 0x80 ≤ b2 && b2 ≤ 0xbf then some ((b - 0xc0) * 0x40 + (b2 - 0x80), 1)
      else none
    | [] => none
  else if 0xe0 ≤ b && b ≤ 0xef then
    match rest with
    | b2 :: b3 :: _ =>
      let lo2 : Nat := if b == 0xe0 then 0xa0 else 0x80
      let hi2 : Nat := if b == 0xed then 0x9f else 0xbf
      if lo2 ≤ b2 && b2 ≤ hi2 && 0x80 ≤ b3 && b3 ≤ 0xbf then
        some ((b - 0xe0) * 0x1000 + (b2 - 0x80) * 0x40 + (b3 - 0x80), 2)
      else none
    | _ => none
  else if 0xf0 ≤ b && b ≤ 0xf4 then
    match rest with
    | b2 :: b3 :: b4 :: _ =>
      let lo2 : Nat := if b == 0xf0 then 0x90 else 0x80
      let hi2 : Nat := if b == 0xf4 then 0x8f else 0xbf
      if lo2 ≤ b2 && b2 ≤ hi2 && 0x80 ≤ b3 && b3 ≤ 0xbf && 0x80 ≤ b4 && b4 ≤ 0xbf then
        some ((b - 0xf0) * 0x40000 + (b2 - 0x80) * 0x1000 +
                (b3 - 0x80) * 0x40 + (b4 - 0x80), 3)
      else none
    | _ => none
  else none

/-- The decoding loop, with fuel (one unit per decoded scalar; the lead
byte is always consumed, so the byte count is enough fuel). -/
def utf8DecodeGo : Nat → List Nat → Option (List Char)
  | _, [] => some []
  | 0, _ :: _ => none
  | fuel + 1, b :: rest =>
    match utf8DecodeOne b rest with
    | none => none
    | some (cp, k) =>
      (utf8DecodeGo fuel (rest.drop k)).map (fun cs => Char.ofNat cp :: cs)

/-- Strict UTF-8 decoding of a byte list, Python `bytes.decode("utf-8")`:
`none` models a raised `UnicodeDecodeError`. -/
def utf8Decode (bs : List Nat) : Option (List Char) :=
  utf8DecodeGo bs.length bs

/-- UTF-8 encoding of one code point. -/
def utf8EncodeChar (n : Nat) : List Nat :=
  if n < 0x80 then [n]
  else if n < 0x800 then [0xc0 + n / 0x40, 0x80 + n % 0x40]
  else if n < 0x10000 then
    [0xe0 + n / 0x1000, 0x80 + n / 0x40 % 0x40, 0x80 + n % 0x40]
  else
    [0xf0 + n / 0x40000, 0x80 + n / 0x1000 % 0x40,
     0x80 + n / 0x40 % 0x40, 0x80 + n % 0x40]

/-- Python `str.encode("utf-8")`. -/
def utf8Encode (s : String) : List Nat := s.data.flatMap (fun c => utf8EncodeChar c.toNat)

/-! ## Canonicalizer / hasher (`app/core/answer_validator.py`)

`normalize_results` turns each row tuple into a column-name → value
mapping with normalized values, then sorts the mappings by their
`json.dumps(·, sort_keys=True)` serialization; `generate_hash` serializes
the sorted list the same way and takes the SHA-256 of its UTF-8 bytes.

A Python `dict` is represented canonically as an association list strictly
sorted by key — equality of these lists is exactly Python `dict` equality,
and every use the source makes of a row dict (`json.dumps` with
`sort_keys=True`) observes only this sorted form. -/

/-- `row_dict[col_name] = value`: Python dict assignment on the canonical
key-sorted association list (a repeated key overwrites the stored value). -/
def dictInsert (k : String) (v : α) :
    List (String × α) → List (String × α)
  | [] => [(k, v)]
  | (k', v') :: rest =>
    if k = k' then (k, v) :: rest
    else if k < k' then (k, v) :: (k', v') :: rest
    else (k', v') :: dictInsert k v rest

/-- Python dict lookup on the canonical association list. -/
def dictLookup (d : List (String × α)) (k : String) : Option α :=
  match d with
  | [] => none
  | (k', v') :: rest => if k = k' then some v' else dictLookup rest k

/-- The value-normalization branch of `normalize_results`: `None` → `None`;
`int` kept; `bytes` decoded as UTF-8 (which can raise, modelled `none`);
anything else stringified and stripped (for `str` input, `str(value)` is
the value itself). -/
def normalizeValue : PyVal → Option NormVal
  | .vNull => some .nNull
  | .vInt i => some (.nInt i)
  | .vBlob bs => (utf8Decode bs).map (fun cs => .nStr ⟨cs⟩)
  | .vStr s => some (.nStr (pyStrip s))

/-- The `for i, col_name in enumerate(columns)` loop of `normalize_results`,
building one row's dict; `none` models a raised exception (`IndexError`
when the row is shorter than the column list, or `UnicodeDecodeError`). -/
def buildRowFrom (row : List PyVal) :
    Nat → List String → List (String × NormVal) → Option (List (String × NormVal))
  | _, [], acc => some acc
  | i, col :: cols, acc =>
    match row.get? i with
    | none => none
    | some v =>
      match normalizeValue v with
      | none => none
      | some nv => buildRowFrom row (i + 1) cols (dictInsert col nv acc)

/-- One row of `normalize_results`: zip the row into a column-name → value
dict with normalized values. -/
def buildRow (columns : List String) (row : List PyVal) :
    Option (List (String × NormVal)) :=
  buildRowFrom row 0 columns []

/-! ### `json.dumps(…, sort_keys=True)` with the default separators -/

/-- Decimal digits of a natural number, most significant first. -/
def natDecChars (n : Nat) : List Char :=
  if h : n < 10 then [Char.ofNat (0x30 + n)]
  else natDecChars (n / 10) ++ [Char.ofNat (0x30 + n % 10)]
decreasing_by
  have : 10 ≤ n := Nat.le_of_not_lt h
  exact Nat.div_lt_self (by omega) (by omega)

/-- Decimal rendering of a Python `int`, as `json.dumps` prints it. -/
def intDecChars (i : Int) : List Char :=
  if i < 0 then '-' :: natDecChars i.natAbs else natDecChars i.natAbs

/-- Lowercase hexadecimal digit. -/
def hexDigitChar (k : Nat) : Char :=
  if k < 10 then Char.ofNat (0x30 + k) else Char.ofNat (0x57 + k)

/-- Four lowercase hex digits, as in a JSON `\uXXXX` escape. -/
def hex4 (n : Nat) : List Char :=
  [hexDigitChar (n / 0x1000 % 16), hexDigitChar (n / 0x100 % 16),
   hexDigitChar (n / 0x10 % 16), hexDigitChar (n % 16)]

/-- The per-character escaping of `json.dumps` with its default
`ensure_ascii=True`: printable ASCII other than `"` and `\` stands for
itself; the named escapes cover the usual control characters; everything
else becomes `\uXXXX`, astral code points as a surrogate pair. -/
def escapeChar (c : Char) : List Char :=
  let n := c.toNat
  if n = 0x5c then ['\\', '\\']
  else if n = 0x22 then ['\\', '"']
  else if n = 0x08 then ['\\', 'b']
  else if n = 0x09 then ['\\', 't']
  else if n = 0x0a then ['\\', 'n']
  else if n = 0x0c then ['\\', 'f']
  else if n = 0x0d then ['\\', 'r']
  else if 0x20 ≤ n && n ≤ 0x7e then [c]
  else if n < 0x10000 then '\\' :: 'u' :: hex4 n
  else
    ('\\' :: 'u' :: hex4 (0xd800 + (n - 0x10000) / 0x400)) ++
      ('\\' :: 'u' :: hex4 (0xdc00 + (n - 0x10000) % 0x400))

/-- A JSON string literal, `json.dumps` style. -/
def jsonStrChars (s : String) : List Char :=
  ('"' :: s.data.flatMap escapeChar) ++ ['"']

/-- Serialization of a normalized scalar value. -/
def serNormChars : NormVal → List Char
  | .nNull => ['n', 'u', 'l', 'l']
  | .nInt i => intDecChars i
  | .nStr s => jsonStrChars s

/-- `json.dumps`'s default item separator `", "`. -/
def joinComma : List (List Char) → List Char
  | [] => []
  | [x] => x
  | x :: y :: xs => x ++ ',' :: ' ' :: joinComma (y :: xs)

/-- One dict entry, `"key": value` with the default `": "` separator. -/
def serEntryChars (e : String × NormVal) : List Char :=
  jsonStrChars e.1 ++ ':' :: ' ' :: serNormChars e.2

/-- `json.dumps(row_dict, sort_keys=True)` — the canonical association
list is already key-sorted, so this is a plain object rendering. -/
def serRowChars (d : List (String × NormVal)) : List Char :=
  ('{' :: joinComma (d.map serEntryChars)) ++ ['}']

/-- The sort key `json.dumps(x, sort_keys=True, default=str)` used by
`normalize_results` (as a `String`, compared code point by code point as
Python compares `str`). -/
def serRow (d : List (String × NormVal)) : String := ⟨serRowChars d⟩

/-- Stable insertion of `x` into a list sorted by `key`, placing `x`
before the first element whose key is not smaller. -/
def insertByKey (key : α → String) (x : α) : List α → List α
  | [] => [x]
  | y :: ys => if key x ≤ key y then x :: y :: ys else y :: insertByKey key x ys

/-- Python's stable `sorted(…, key=…)`. -/
def sortByKeyStr (key : α → String) : List α → List α
  | [] => []
  | x :: xs => insertByKey key x (sortByKeyStr key xs)

/-- The row loop of `normalize_results`: build every row's dict in order
(`none` as soon as one row raises). -/
def buildRows (columns : List String) : List (List PyVal) →
    Option (List (List (String × NormVal)))
  | [] => some []
  | r :: rs =>
    match buildRow columns r with
    | none => none
    | some d => (buildRows columns rs).map (fun ds => d :: ds)

/-- `normalize_results(results, columns)`: each row becomes a normalized
dict and the dicts are sorted by their serialized form; `none` models a
raised exception. -/
def normalize_results (results : List (List PyVal)) (columns : List String) :
    Option (List (List (String × NormVal))) :=
  (buildRows columns results).map (sortByKeyStr serRow)

/-- `json.dumps(normalized, sort_keys=True, default=str)`: the top-level
list rendering of the sorted row dicts. -/
def jsonOfRows (l : List (List (String × NormVal))) : String :=
  ⟨('[' :: joinComma (l.map serRowChars)) ++ [']']⟩

/-- The exact string whose UTF-8 bytes `generate_hash` feeds to SHA-256. -/
def hashInput (results : List (List PyVal)) (columns : List String) :
    Option String :=
  (normalize_results results columns).map jsonOfRows

/-! ### SHA-256 -/

/-- Truncation to a 32-bit word. -/
def w32 (n : Nat) : Nat := n % 4294967296

/-- 32-bit right rotation. -/
def rotr (x n : Nat) : Nat := w32 ((x >>> n) + (x <<< (32 - n)))

/-- SHA-256 round constants. -/
def sha256K : List Nat :=
  [1116352408, 1899447441, 3049323471, 3921009573, 961987163, 1508970993,
   2453635748, 2870763221, 3624381080, 310598401, 607225278, 1426881987,
   1925078388, 2162078206, 2614888103, 3248222580, 3835390401, 4022224774,
   264347078, 604807628, 770255983, 1249150122, 1555081692, 1996064986,
   2554220882, 2821834349, 2952996808, 3210313671, 3336571891, 3584528711,
   113926993, 338241895, 666307205, 773529912, 1294757372, 1396182291,
   1695183700, 1986661051, 2177026350, 2456956037, 2730485921, 2820302411,
   3259730800, 3345764771, 3516065817, 3600352804, 4094571909, 275423344,
   430227734, 506948616, 659060556, 883997877, 958139571, 1322822218,
   1537002063, 1747873779, 1955562222, 2024104815, 2227730452, 2361852424,
   2428436474, 2756734187, 3204031479, 3329325298]

/-- SHA-256 initial hash state. -/
def sha256H0 : List Nat :=
  [1779033703, 3144134277, 1013904242, 2773480762, 1359893119, 2600822924,
   528734635, 1541459225]

/-- SHA-256 padding: append `0x80`, zero bytes, and the 64-bit bit length. -/
def sha256Pad (msg : List Nat) : List Nat :=
  let len := msg.length
  let zeros := (64 - (len + 9) % 64) % 64
  msg ++ 0x80 :: List.replicate zeros 0 ++
    (List.range 8).map (fun i => ((len * 8) >>> ((7 - i) * 8)) % 256)

/-- Split into blocks of sixteen 32-bit big-endian words. -/
def sha256Blocks : List Nat → List (List Nat)
  | [] => []
  | b :: bs =>
    let block := (b :: bs).take 64
    let words := (List.range 16).map (fun i =>
      block.getD (4 * i) 0 * 0x1000000 + block.getD (4 * i + 1) 0 * 0x10000 +
        block.getD (4 * i + 2) 0 * 0x100 + block.getD (4 * i + 3) 0)
    words :: sha256Blocks ((b :: bs).drop 64)
termination_by bs => bs.length
decreasing_by
  simp only [List.length_drop, List.length_cons]
  omega

/-- The 64-entry message schedule of one block. -/
def sha256Schedule (w16 : List Nat) : List Nat :=
  let step := fun (w : List Nat) (i : Nat) =>
    let s0 :=
      (rotr (w.getD (i - 15) 0) 7) ^^^ (rotr (w.getD (i - 15) 0) 18) ^^^
        (w.getD (i - 15) 0 >>> 3)
    let s1 :=
      (rotr (w.getD (i - 2) 0) 17) ^^^ (rotr (w.getD (i - 2) 0) 19) ^^^
        (w.getD (i - 2) 0 >>> 10)
    w ++ [w32 (w.getD (i - 16) 0 + s0 + w.getD (i - 7) 0 + s1)]
  (List.range 48).foldl (fun w j => step w (16 + j)) w16

/-- One round of the SHA-256 compression function. -/
def sha256Round (st : List Nat) (kw : Nat) : List Nat :=
  match st with
  | [a, b, c, d, e, f, g, h] =>
    let s1 := (rotr e 6) ^^^ (rotr e 11) ^^^ (rotr e 25)
    let ch := (e &&& f) ^^^ ((4294967295 - e) &&& g)
    let t1 := w32 (h + s1 + ch + kw)
    let s0 := (rotr a 2) ^^^ (rotr a 13) ^^^ (rotr a 22)
    let mj := (a &&& b) ^^^ (a &&& c) ^^^ (b &&& c)
    let t2 := w32 (s0 + mj)
    [w32 (t1 + t2), a, b, c, w32 (d + t1), e, f, g]
  | other => other

/-- Process one 16-word block into the running hash state. -/
def sha256Compress (st : List Nat) (w16 : List Nat) : List Nat :=
  let w := sha256Schedule w16
  let kw := List.zipWith (fun k x => w32 (k + x)) sha256K w
  let fin := kw.foldl sha256Round st
  List.zipWith (fun x y => w32 (x + y)) st fin

/-- SHA-256 digest of a byte list, as 32 bytes. -/
def sha256Bytes (msg : List Nat) : List Nat :=
  let st := (sha256Blocks (sha256Pad msg)).foldl sha256Compress sha256H0
  st.flatMap (fun x => [x >>> 24 % 256, x >>> 16 % 256, x >>> 8 % 256, x % 256])

/-- Lowercase hex rendering of a byte list (`hexdigest()`). -/
def bytesToHex (bs : List Nat) : String :=
  ⟨bs.flatMap (fun b => [hexDigitChar (b / 16), hexDigitChar (b % 16)])⟩

/-- `hashlib.sha256(s.encode("utf-8")).hexdigest()`. -/
def sha256HexOfString (s : String) : String := bytesToHex (sha256Bytes (utf8Encode s))

/-- `generate_hash(results, columns)`: SHA-256 hex digest of the canonical
serialization; `none` models a raised exception. -/
def generate_hash (results : List (List PyVal)) (columns : List String) :
    Option String :=
  (normalize_results results columns).map (fun l => sha256HexOfString (jsonOfRows l))

/-- `validate_answer(user_results, user_columns, correct_hash)`. -/
def validate_answer (user_results : List (List PyVal)) (user_columns : List String)
    (correct_hash : String) : Option Bool :=
  (generate_hash user_results user_columns).map (fun h => h = correct_hash)

/-! ## A JSON reader for the canonical serialization

The serializer above is deterministic; to show it is also injective (the
content of the "any difference changes the digest" claims), we give a
reader for exactly the grammar `json.dumps` emits here and prove the
round trip.  These definitions exist only for the proofs; they model no
Python code. -/

/-- ASCII decimal digit. -/
def isDigitChar (c : Char) : Bool := 0x30 ≤ c.toNat && c.toNat ≤ 0x39

/-- Lowercase-hex digit test matching `hexDigitChar`'s image. -/
def isHexChar (c : Char) : Bool :=
  (0x30 ≤ c.toNat && c.toNat ≤ 0x39) || (0x61 ≤ c.toNat && c.toNat ≤ 0x66)

/-- Value of a lowercase-hex digit. -/
def hexVal (c : Char) : Nat :=
  if c.toNat ≤ 0x39 then c.toNat - 0x30 else c.toNat - 0x57

/-- Read a decimal run left to right, accumulating. -/
def parseNatAcc (acc : Nat) : List Char → Nat × List Char
  | [] => (acc, [])
  | c :: rest =>
    if isDigitChar c then parseNatAcc (acc * 10 + (c.toNat - 0x30)) rest
    else (acc, c :: rest)

/-- Read a nonempty decimal run. -/
def parseNatNum : List Char → Option (Nat × List Char)
  | [] => none
  | c :: rest =>
    if isDigitChar c then some (parseNatAcc (c.toNat - 0x30) rest) else none

/-- Undo one `escapeChar` step: given the first character and the rest,
return the decoded character and how many further characters of the rest
were consumed (named escapes, `\uXXXX`, surrogate pairs, or a plain
printable character other than the quote). -/
def unescapeOne (c : Char) (rest : List Char) : Option (Char × Nat) :=
  if c = '\\' then
    match rest with
    | [] => none
    | e :: r1 =>
      if e = 'u' then
        match r1 with
        | a :: b :: c2 :: d :: r2 =>
          if isHexChar a && isHexChar b && isHexChar c2 && isHexChar d then
            let n := ((hexVal a * 16 + hexVal b) * 16 + hexVal c2) * 16 + hexVal d
            if 0xd800 ≤ n && n ≤ 0xdbff then
              match r2 with
              | e2 :: u2 :: a2 :: b2 :: c3 :: d2 :: _ =>
                if e2 = '\\' && u2 = 'u' && isHexChar a2 && isHexChar b2 &&
                    isHexChar c3 && isHexChar d2 then
                  let m := ((hexVal a2 * 16 + hexVal b2) * 16 + hexVal c3) * 16 + hexVal d2
                  if 0xdc00 ≤ m && m ≤ 0xdfff then
                    some (Char.ofNat (0x10000 + (n - 0xd800) * 0x400 + (m - 0xdc00)), 11)
                  else none
                else none
              | _ => none
            else if 0xdc00 ≤ n && n ≤ 0xdfff then none
            else some (Char.ofNat n, 5)
          else none
        | _ => none
      else if e = '"' then some ('"', 1)
      else if e = '\\' then some ('\\', 1)
      else if e = 'b' then some (Char.ofNat 0x08, 1)
      else if e = 't' then some (Char.ofNat 0x09, 1)
      else if e = 'n' then some (Char.ofNat 0x0a, 1)
      else if e = 'f' then some (Char.ofNat 0x0c, 1)
      else if e = 'r' then some (Char.ofNat 0x0d, 1)
      else none
  else if c ≠ '"' && 0x20 ≤ c.toNat && c.toNat ≤ 0x7e then some (c, 0)
  else none

/-- Read an escaped JSON string body up to its closing quote, undoing
`escapeChar`. -/
def parseStrBody (l : List Char) : Option (List Char × List Char) :=
  match l with
  | [] => none
  | c :: rest =>
    if c = '"' then some ([], rest)
    else
      match unescapeOne c rest with
      | none => none
      | some (ch, k) =>
        (parseStrBody (rest.drop k)).map (fun p => (ch :: p.1, p.2))
termination_by l.length
decreasing_by
  simp only [List.length_cons, List.length_drop]
  omega

/-- Read one serialized scalar value. -/
def parseVal (l : List Char) : Option (NormVal × List Char) :=
  match l with
  | [] => none
  | c :: rest =>
    if c = 'n' then
      if rest.take 3 = ['u', 'l', 'l'] then some (.nNull, rest.drop 3) else none
    else if c = '"' then (parseStrBody rest).map (fun p => (.nStr ⟨p.1⟩, p.2))
    else if c = '-' then (parseNatNum rest).map (fun p => (.nInt (-(p.1 : Int)), p.2))
    else (parseNatNum (c :: rest)).map (fun p => (.nInt (p.1 : Int), p.2))

/-- Read one `"key": value` object entry. -/
def parseEntry (l : List Char) : Option ((String × NormVal) × List Char) :=
  match l with
  | '"' :: r1 =>
    match parseStrBody r1 with
    | none => none
    | some (k, r2) =>
      match r2 with
      | ':' :: ' ' :: r3 => (parseVal r3).map (fun p => ((⟨k⟩, p.1), p.2))
      | _ => none
  | _ => none

/-- Read the `, entry`* `}` tail of an object. -/
def parseObjTail : Nat → List Char → Option (List (String × NormVal) × List Char)
  | _, '}' :: rest => some ([], rest)
  | fuel + 1, ',' :: ' ' :: r1 =>
    match parseEntry r1 with
    | none => none
    | some (e, r2) => (parseObjTail fuel r2).map (fun p => (e :: p.1, p.2))
  | _, _ => none

/-- Read one serialized row object. -/
def parseObj (fuel : Nat) (l : List Char) :
    Option (List (String × NormVal) × List Char) :=
  match l with
  | '{' :: '}' :: rest => some ([], rest)
  | '{' :: r1 =>
    match parseEntry r1 with
    | none => none
    | some (e, r2) => (parseObjTail fuel r2).map (fun p => (e :: p.1, p.2))
  | _ => none

/-- Read the `, object`* `]` tail of the top-level list. -/
def parseRowsTail : Nat → List Char → Option (List (List (String × NormVal)) × List Char)
  | _, ']' :: rest => some ([], rest)
  | fuel + 1, ',' :: ' ' :: r1 =>
    match parseObj r1.length r1 with
    | none => none
    | some (d, r2) => (parseRowsTail fuel r2).map (fun p => (d :: p.1, p.2))
  | _, _ => none

/-- Read the whole serialized list of row objects. -/
def parseRows (l : List Char) :
    Option (List (List (String × NormVal)) × List Char) :=
  match l with
  | '[' :: ']' :: rest => some ([], rest)
  | '[' :: r1 =>
    match parseObj r1.length r1 with
    | none => none
    | some (d, r2) => (parseRowsTail r2.length r2).map (fun p => (d :: p.1, p.2))
  | _ => none

/-! ## Read-only query sandbox (`app/core/query_executor.py`) -/

/-- The fixed blocklist of `QueryExecutor._is_safe_query`. -/
def dangerous_keywords : List String :=
  ["DROP", "DELETE", "INSERT", "UPDATE", "ALTER",
   "CREATE", "TRUNCATE", "REPLACE", "PRAGMA",
   "ATTACH", "DETACH"]

/-- `QueryExecutor._is_safe_query`: nonempty after stripping, starts with
`SELECT` once stripped and uppercased, and contains no blocked keyword. -/
def is_safe_query (query : String) : Bool :=
  if (pyStrip query).data.isEmpty then false
  else
    let query_upper := asciiUpper (pyStrip query)
    if ¬ strStartsWith query_upper "SELECT" then false
    else if dangerous_keywords.any (fun k => hasSub query_upper.data k.data) then false
    else true

/-- The exceptions `QueryExecutor.execute_query` can raise
(`UnsafeQueryError`, `QueryTimeoutError`, `QueryExecutionError`). -/
inductive StudentErr where
  | unsafeQuery (msg : String)
  | queryTimeout (msg : String)
  | executionFailed (msg : String)
  deriving DecidableEq

/-- What the SQLite layer does when the sandbox actually runs a statement
against the read-only connection: rows returned with a wall-clock duration,
a timeout, an `sqlite3.Error`, or some other exception. -/
inductive RunOutcome where
  | ok (columns : List String) (rows : List (List PyVal)) (elapsedMs : Nat)
  | timesOut
  | sqliteError (msg : String)
  | otherError (msg : String)
  deriving DecidableEq

/-- The message of the `UnsafeQueryError` raise in `execute_query`. -/
def unsafeQueryMsg : String :=
  "Only SELECT queries are allowed. Queries must not contain DROP, DELETE, INSERT, UPDATE, ALTER, CREATE, etc."

/-- `QueryExecutor.execute_query`: the safety gate, then the database
action described by the oracle `db` (which is only consulted when the gate
passes — the Python code raises before touching the connection). -/
def QueryExecutor.execute_query (db : RunOutcome) (query : String)
    (timeout_seconds : Nat) :
    Except StudentErr (List String × List (List PyVal) × Nat) :=
  if ¬ is_safe_query query then
    .error (.unsafeQuery unsafeQueryMsg)
  else
    match db with
    | .ok cols rows t => .ok (cols, rows, t)
    | .timesOut =>
      .error (.queryTimeout
        ("Query execution exceeded " ++ toString timeout_seconds ++ " seconds"))
    | .sqliteError m => .error (.executionFailed ("SQL execution error: " ++ m))
    | .otherError m =>
      .error (.executionFailed ("Unexpected error during query execution: " ++ m))

/-- The dict comprehension `{columns[i]: row[i] for i in range(len(columns))}`
(`none` models the `IndexError` on a row shorter than the column list),
entries kept canonically key-sorted like every dict of the model. -/
def rawRowDictFrom (row : List PyVal) :
    Nat → List String → List (String × PyVal) → Option (List (String × PyVal))
  | _, [], acc => some acc
  | i, col :: cols, acc =>
    match row.get? i with
    | none => none
    | some v => rawRowDictFrom row (i + 1) cols (dictInsert col v acc)

/-- One result row as the API returns it. -/
def rawRowDict (columns : List String) (row : List PyVal) :
    Option (List (String × PyVal)) :=
  rawRowDictFrom row 0 columns []

/-- The list comprehension `[{...} for row in results]`: build each row
dict in order, the first raised `IndexError` propagating. -/
def optionTraverse (f : α → Option β) : List α → Option (List β)
  | [] => some []
  | x :: xs =>
    match f x with
    | none => none
    | some y => (optionTraverse f xs).map (fun ys => y :: ys)

/-- The dictionary `execute_student_query` returns. -/
structure StudentResult where
  success : Bool
  columns : List String
  results : List (List (String × PyVal))
  raw_results : List (List PyVal)
  execution_time_ms : Nat
  row_count : Nat
  error_message : Option String
  deriving DecidableEq

/-- `execute_student_query(db_path, query, timeout)`; `none` models an
exception escaping (only possible if a success row were shorter than the
column list, which the SQLite driver never produces). -/
def execute_student_query (db : RunOutcome) (query : String) (timeout : Nat) :
    Option StudentResult :=
  match QueryExecutor.execute_query db query timeout with
  | .ok (columns, results, t) =>
    (optionTraverse (rawRowDict columns) results).map (fun result_dicts =>
      { success := true, columns := columns, results := result_dicts,
        raw_results := results, execution_time_ms := t,
        row_count := results.length, error_message := none })
  | .error (.unsafeQuery m) =>
    some { success := false, columns := [], results := [], raw_results := [],
           execution_time_ms := 0, row_count := 0, error_message := some m }
  | .error (.queryTimeout m) =>
    some { success := false, columns := [], results := [], raw_results := [],
           execution_time_ms := timeout * 1000, row_count := 0,
           error_message := some ("Query timeout: " ++ m) }
  | .error (.executionFailed m) =>
    some { success := false, columns := [], results := [], raw_results := [],
           execution_time_ms := 0, row_count := 0, error_message := some m }

/-! ## Read-write lab executor (`app/core/lab_query_executor.py`) -/

/-- The exceptions `LabQueryExecutor.execute_query` can raise. -/
inductive LabErr where
  | labTimeout (msg : String)
  | labExecError (msg : String)
  deriving DecidableEq

/-- What the SQLite layer does inside the worker thread: some call raises,
or every call succeeds, `(cols, rows)` being what `description`/`fetchall`
would give for a retrieval statement. -/
inductive LabDbOutcome where
  | raises (msg : String)
  | ok (cols : List String) (rows : List (List PyVal))
  deriving DecidableEq

/-- The `result_container` the worker thread fills in. -/
structure LabWorkerResult where
  columns : List String
  results : List (List PyVal)
  error : Option String
  committed : Bool
  deriving DecidableEq

/-- The body of `execute_in_thread`: run the statement; a retrieval
statement (trimmed, uppercased, starting `SELECT`) fetches rows and column
names, anything else commits and leaves both empty. -/
def labWorkerRun (db : LabDbOutcome) (query : String) : LabWorkerResult :=
  match db with
  | .raises m => { columns := [], results := [], error := some m, committed := false }
  | .ok cols rows =>
    if strStartsWith (asciiUpper (pyStrip query)) "SELECT" then
      { columns := cols, results := rows, error := none, committed := false }
    else
      { columns := [], results := [], error := none, committed := true }

/-- `LabQueryExecutor.execute_query`: join the worker with the timeout;
`doneInTime` says whether the worker signalled completion before the join
deadline, `elapsedMs` is the measured wall-clock duration.  The returned
flag is whether the worker('s eventual run) committed — on timeout the
worker continues in the background. -/
def LabQueryExecutor.execute_query (db : LabDbOutcome) (query : String)
    (timeout_seconds : Nat) (doneInTime : Bool) (elapsedMs : Nat) :
    Except LabErr (List String × List (List PyVal) × Nat) × Bool :=
  let w := labWorkerRun db query
  if ¬ doneInTime then
    (.error (.labTimeout
      ("Query execution exceeded " ++ toString timeout_seconds ++ " seconds")),
     w.committed)
  else
    match w.error with
    | some m => (.error (.labExecError ("SQL execution error: " ++ m)), w.committed)
    | none => (.ok (w.columns, w.results, elapsedMs), w.committed)

/-- The dictionary `execute_lab_query` returns. -/
structure LabResult where
  success : Bool
  columns : List String
  results : List (List (String × PyVal))
  execution_time_ms : Nat
  row_count : Nat
  error_message : Option String
  deriving DecidableEq

/-- The `IndexError` message of a misaligned row in the dict comprehension. -/
def indexErrMsg : String := "list index out of range"

/-- `execute_lab_query(db_path, query, timeout)`: every outcome is mapped
into the `LabResult` shape (the bare `except Exception` also catches an
`IndexError` from the dict comprehension). -/
def execute_lab_query (db : LabDbOutcome) (query : String) (timeout : Nat)
    (doneInTime : Bool) (elapsedMs : Nat) : LabResult × Bool :=
  match LabQueryExecutor.execute_query db query timeout doneInTime elapsedMs with
  | (.ok (columns, results, t), cm) =>
    match optionTraverse (rawRowDict columns) results with
    | some result_dicts =>
      ({ success := true, columns := columns, results := result_dicts,
         execution_time_ms := t, row_count := results.length,
         error_message := none }, cm)
    | none =>
      ({ success := false, columns := [], results := [],
         execution_time_ms := 0, row_count := 0,
         error_message := some ("Unexpected error: " ++ indexErrMsg) }, cm)
  | (.error (.labTimeout m), cm) =>
    ({ success := false, columns := [], results := [],
       execution_time_ms := timeout * 1000, row_count := 0,
       error_message := some ("Query timeout: " ++ m) }, cm)
  | (.error (.labExecError m), cm) =>
    ({ success := false, columns := [], results := [],
       execution_time_ms := 0, row_count := 0,
       error_message := some m }, cm)

/-! ## Database lifecycle manager (`app/utils/db_generator.py`,
`app/utils/lab_db_manager.py`)

The SQLite scripts and the catalogue check are oracles; `os.remove` on the
partially built file is modelled as succeeding (a filesystem refusal is
outside the model). -/

/-- Outcome of `cursor.executescript(...)` on one SQL script. -/
inductive ScriptOutcome where
  | ok
  | fails (msg : String)
  deriving DecidableEq

/-- The backend's behaviour while building one database file. -/
structure BuildOracle where
  schemaRun : ScriptOutcome
  seedRun : ScriptOutcome
  anyTable : Bool
  deriving DecidableEq

/-- The exceptions a reference build can raise: `SQLValidationError` or
`DatabaseGenerationError` / `LabDatabaseError`, with their messages. -/
inductive BuildErr where
  | sqlValidation (msg : String)
  | generation (msg : String)
  deriving DecidableEq

/-- Result of a build: the raised error or the returned path, plus whether
the database file exists on disk afterwards. -/
structure BuildResult where
  outcome : Except BuildErr String
  fileOnDisk : Bool

/-- `validate_sql_statements(sql, statement_type)`: `some msg` models a
raised `SQLValidationError`. -/
def validate_sql_statements (sql : String) (statement_type : String) : Option String :=
  if (pyStrip sql).data.isEmpty then
    some (statement_type ++ " SQL cannot be empty")
  else if (statement_type = "schema" || statement_type = "data") &&
      hasSub (asciiUpper sql).data "DROP DATABASE".data then
    some "Dangerous operation detected: DROP DATABASE"
  else if (statement_type = "schema" || statement_type = "data") &&
      hasSub (asciiUpper sql).data "DROP SCHEMA".data then
    some "Dangerous operation detected: DROP SCHEMA"
  else if statement_type = "query" &&
      ¬ strStartsWith (asciiUpper (pyStrip sql)) "SELECT" then
    some "Only SELECT queries are allowed for answer validation"
  else none

/-- The shared tail of both builders: connect (the file now exists), run
the schema script, run the seed script, check `sqlite_master` — deleting
the file on every failing path. -/
def buildDatabaseFile (o : BuildOracle) (db_path : String)
    (schemaFailMsg seedFailMsg : String → String) (emptyMsg : String) : BuildResult :=
  match o.schemaRun with
  | .fails m => { outcome := .error (.generation (schemaFailMsg m)), fileOnDisk := false }
  | .ok =>
    match o.seedRun with
    | .fails m => { outcome := .error (.generation (seedFailMsg m)), fileOnDisk := false }
    | .ok =>
      if o.anyTable then { outcome := .ok db_path, fileOnDisk := true }
      else { outcome := .error (.generation emptyMsg), fileOnDisk := false }

/-- `create_sqlite_from_sql(schema_sql, data_sql, correct_answer_query)`:
validate the three scripts, then build the file. -/
def create_sqlite_from_sql (schema_sql data_sql correct_answer_query : String)
    (o : BuildOracle) (db_path : String) : BuildResult :=
  match validate_sql_statements schema_sql "schema" with
  | some m => { outcome := .error (.sqlValidation m), fileOnDisk := false }
  | none =>
    match validate_sql_statements data_sql "data" with
    | some m => { outcome := .error (.sqlValidation m), fileOnDisk := false }
    | none =>
      match validate_sql_statements correct_answer_query "query" with
      | some m => { outcome := .error (.sqlValidation m), fileOnDisk := false }
      | none =>
        buildDatabaseFile o db_path
          (fun m => "Schema SQL execution failed: " ++ m)
          (fun m => "Data SQL execution failed: " ++ m)
          "No tables were created. Check your schema SQL."

/-- `create_lab_template(lab_id, schema_sql, data_sql)`: remove any
pre-existing template (modelled as succeeding), then build the file.  The
raised errors are `LabDatabaseError`s with the same message shapes. -/
def create_lab_template (o : BuildOracle) (template_path : String) : BuildResult :=
  buildDatabaseFile o template_path
    (fun m => "Schema SQL execution failed: " ++ m)
    (fun m => "Data SQL execution failed: " ++ m)
    "No tables were created. Check your schema SQL."

/-! ## Session reaper (`app/utils/lab_cleanup.py`) -/

/-- Outcome of one `os.remove` call on the session database file. -/
inductive RemoveOutcome where
  | removed
  | permErr (msg : String)
  | otherErr (msg : String)
  deriving DecidableEq

/-- The observable events of `terminate_session`, in program order. -/
inductive TermEv where
  | attemptsDeleted
  | commitEv
  | gcPass
  | removeTry
  | sleep100ms
  | rollbackEv
  deriving DecidableEq

/-- The environment of one `terminate_session` call: whether the
attempt-row delete raises, whether `db.commit()` raises, whether the
session file exists, and the outcome of the k-th `os.remove` attempt. -/
structure TermOracle where
  attemptsDeleteFails : Option String
  commitFails : Option String
  fileOnDisk : Bool
  removeRuns : Nat → RemoveOutcome

/-- The state `terminate_session` leaves behind: the committed value of
the session's `is_active` flag, whether the file was deleted, and the
event trace. -/
structure TermState where
  isActiveCommitted : Bool
  fileDeleted : Bool
  events : List TermEv
  deriving DecidableEq

/-- The `for attempt in range(max_retries)` loop: try `os.remove`; on a
`PermissionError` sleep 100 ms, force a GC pass and retry (up to the
budget); on any other exception give up (the session stays terminated). -/
def tryDeleteLoop (runs : Nat → RemoveOutcome) :
    Nat → Nat → List TermEv × Bool
  | _, 0 => ([], false)
  | attempt, remaining + 1 =>
    match runs attempt with
    | .removed => ([.removeTry], true)
    | .permErr _ =>
      if remaining = 0 then ([.removeTry], false)
      else
        let p := tryDeleteLoop runs (attempt + 1) remaining
        (.removeTry :: .sleep100ms :: .gcPass :: p.1, p.2)
    | .otherErr _ => ([.removeTry], false)

/-- `terminate_session(session, db)`: delete the attempt rows, mark the
session inactive and commit, then best-effort-delete the file with the
bounded retry loop; any exception in the first phase rolls back and
returns `False`. -/
def terminate_session (o : TermOracle) : Bool × TermState :=
  match o.attemptsDeleteFails with
  | some _ =>
    (false, { isActiveCommitted := true, fileDeleted := false,
              events := [.rollbackEv] })
  | none =>
    match o.commitFails with
    | some _ =>
      (false, { isActiveCommitted := true, fileDeleted := false,
                events := [.attemptsDeleted, .rollbackEv] })
    | none =>
      if o.fileOnDisk then
        let p := tryDeleteLoop o.removeRuns 0 5
        (true, { isActiveCommitted := false, fileDeleted := p.2,
                 events := [.attemptsDeleted, .commitEv, .gcPass] ++ p.1 })
      else
        (true, { isActiveCommitted := false, fileDeleted := false,
                 events := [.attemptsDeleted, .commitEv, .gcPass] })

/-! ## Helpers for stating the claims -/

/-- Whether a cell value's normalization cannot raise: a `bytes` value must
be valid UTF-8, every other supported type always normalizes. -/
def blobDecodes : PyVal → Bool
  | .vBlob bs => (utf8Decode bs).isSome
  | _ => true

/-- The last index of `name` in `cols`, if any. -/
def lastIdxFrom (cols : List String) (name : String) : Option Nat :=
  match cols with
  | [] => none
  | c :: cs =>
    match lastIdxFrom cs name with
    | some j => some (j + 1)
    | none => if c = name then some 0 else none

/-- The serialized form of an object's tail entries, one `", entry"` block
per entry, then the closing brace (used to phrase the reader's round
trip). -/
def objTailChars : List (String × NormVal) → List Char
  | [] => ['}']
  | e :: es => ',' :: ' ' :: serEntryChars e ++ objTailChars es

/-- The serialized form of the top-level list's tail rows. -/
def rowsTailChars : List (List (String × NormVal)) → List Char
  | [] => [']']
  | d :: ds => ',' :: ' ' :: serRowChars d ++ rowsTailChars ds

/-! # Theorems -/

/-! ## Sorting: `sortByKeyStr` is Mathlib's insertion sort by a key -/

theorem insertByKey_eq_orderedInsert (key : α → String) (x : α) (l : List α) :
    insertByKey key x l = List.orderedInsert (fun a b => key a ≤ key b) x l := by
  induction l with
  | nil => rfl
  | cons y ys ih => simp only [insertByKey, List.orderedInsert, ih]

theorem sortByKeyStr_eq_insertionSort (key : α → String) (l : List α) :
    sortByKeyStr key l = List.insertionSort (fun a b => key a ≤ key b) l := by
  induction l with
  | nil => rfl
  | cons x xs ih =>
    simp only [sortByKeyStr, List.insertionSort, ih, insertByKey_eq_orderedInsert]

theorem map_key_insertByKey (key : α → String) (x : α) (l : List α) :
    (insertByKey key x l).map key = insertByKey id (key x) (l.map key) := by
  induction l with
  | nil => rfl
  | cons y ys ih =>
    simp only [insertByKey, id]
    by_cases h : key x ≤ key y
    · simp [h]
    · simp [h, ih]

theorem map_key_sortByKeyStr (key : α → String) (l : List α) :
    (sortByKeyStr key l).map key = sortByKeyStr id (l.map key) := by
  induction l with
  | nil => rfl
  | cons x xs ih => simp only [sortByKeyStr, List.map_cons, map_key_insertByKey, ih]

theorem sortByKeyStr_id_perm_eq {l1 l2 : List String} (h : l1.Perm l2) :
    sortByKeyStr id l1 = sortByKeyStr id l2 := by
  rw [sortByKeyStr_eq_insertionSort, sortByKeyStr_eq_insertionSort]
  haveI : IsTotal String (fun a b => id a ≤ id b) := ⟨fun a b => le_total a b⟩
  haveI : IsTrans String (fun a b => id a ≤ id b) := ⟨fun a b c => le_trans⟩
  haveI : IsAntisymm String (fun a b => id a ≤ id b) := ⟨fun a b => le_antisymm⟩
  exact List.eq_of_perm_of_sorted
    ((List.perm_insertionSort _ l1).trans (h.trans (List.perm_insertionSort _ l2).symm))
    (List.sorted_insertionSort _ l1) (List.sorted_insertionSort _ l2)

/-! ## Row building is order-independent up to permutation -/

theorem buildRows_perm (c : List String) {r1 r2 : List (List PyVal)}
    (h : r1.Perm r2) :
    (buildRows c r1 = none ∧ buildRows c r2 = none) ∨
      ∃ a1 a2, buildRows c r1 = some a1 ∧ buildRows c r2 = some a2 ∧ a1.Perm a2 := by
  induction h with
  | nil => exact .inr ⟨[], [], rfl, rfl, .nil⟩
  | cons x p ih =>
    cases hbx : buildRow c x with
    | none => exact .inl ⟨by simp [buildRows, hbx], by simp [buildRows, hbx]⟩
    | some d =>
      rcases ih with ⟨h1, h2⟩ | ⟨a1, a2, h1, h2, hp⟩
      · exact .inl ⟨by simp [buildRows, hbx, h1], by simp [buildRows, hbx, h2]⟩
      · exact .inr ⟨d :: a1, d :: a2, by simp [buildRows, hbx, h1],
          by simp [buildRows, hbx, h2], hp.cons d⟩
  | swap x y l =>
    cases hbx : buildRow c x with
    | none =>
      cases hby : buildRow c y with
      | none => exact .inl ⟨by simp [buildRows, hbx, hby], by simp [buildRows, hbx, hby]⟩
      | some dy =>
        exact .inl ⟨by simp [buildRows, hbx, hby], by simp [buildRows, hbx, hby]⟩
    | some dx =>
      cases hby : buildRow c y with
      | none => exact .inl ⟨by simp [buildRows, hbx, hby], by simp [buildRows, hbx, hby]⟩
      | some dy =>
        cases hbl : buildRows c l with
        | none =>
          exact .inl ⟨by simp [buildRows, hbx, hby, hbl],
            by simp [buildRows, hbx, hby, hbl]⟩
        | some ds =>
          exact .inr ⟨dy :: dx :: ds, dx :: dy :: ds,
            by simp [buildRows, hbx, hby, hbl],
            by simp [buildRows, hbx, hby, hbl], .swap dx dy ds⟩
  | trans p q ih1 ih2 =>
    rcases ih1 with ⟨h1, h2⟩ | ⟨a1, a2, h1, h2, hp⟩
    · rcases ih2 with ⟨h3, h4⟩ | ⟨b1, b2, h3, h4, hq⟩
      · exact .inl ⟨h1, h4⟩
      · rw [h2] at h3; cases h3
    · rcases ih2 with ⟨h3, h4⟩ | ⟨b1, b2, h3, h4, hq⟩
      · rw [h2] at h3; cases h3
      · rw [h2] at h3
        exact .inr ⟨a1, b2, h1, h4, hp.trans (by cases h3; exact hq)⟩

theorem jsonOfRows_sort_perm {a1 a2 : List (List (String × NormVal))}
    (hp : a1.Perm a2) :
    jsonOfRows (sortByKeyStr serRow a1) = jsonOfRows (sortByKeyStr serRow a2) := by
  have hmap : (sortByKeyStr serRow a1).map serRow = (sortByKeyStr serRow a2).map serRow := by
    rw [map_key_sortByKeyStr, map_key_sortByKeyStr]
    exact sortByKeyStr_id_perm_eq (hp.map serRow)
  have hchars : (sortByKeyStr serRow a1).map serRowChars
      = (sortByKeyStr serRow a2).map serRowChars := by
    have : ∀ l : List (List (String × NormVal)),
        l.map serRowChars = (l.map serRow).map String.data := by
      intro l; rw [List.map_map]; rfl
    rw [this, this, hmap]
  unfold jsonOfRows
  rw [hchars]

theorem hashInput_perm (columns : List String) {rows1 rows2 : List (List PyVal)}
    (h : rows1.Perm rows2) :
    hashInput rows1 columns = hashInput rows2 columns := by
  rcases buildRows_perm columns h with ⟨h1, h2⟩ | ⟨a1, a2, h1, h2, hp⟩
  · simp [hashInput, normalize_results, h1, h2]
  · simp only [hashInput, normalize_results, h1, h2, Option.map_some]
    exact congrArg some (jsonOfRows_sort_perm hp)

theorem generate_hash_eq_map_hashInput (rows : List (List PyVal))
    (columns : List String) :
    generate_hash rows columns = (hashInput rows columns).map sha256HexOfString := by
  simp only [generate_hash, hashInput, Option.map_map]
  rfl

/-- C1: for every column-name list and every two row lists that are
permutations of the same multiset of rows, `generate_hash` produces
identical digests — the fingerprint is invariant under row reordering. -/
theorem generate_hash_perm_invariant (columns : List String)
    (rows1 rows2 : List (List PyVal)) (h : rows1.Perm rows2) :
    generate_hash rows1 columns = generate_hash rows2 columns := by
  rw [generate_hash_eq_map_hashInput, generate_hash_eq_map_hashInput,
    hashInput_perm columns h]

/-- C1 witness: a concrete two-row permutation hashes identically. -/
theorem generate_hash_perm_invariant_witness :
    generate_hash [[.vInt 1], [.vInt 2]] ["a"]
      = generate_hash [[.vInt 2], [.vInt 1]] ["a"] :=
  generate_hash_perm_invariant ["a"] _ _ (List.Perm.swap _ _ _)

/-! ## Round trip of the canonical serialization: numbers -/

theorem char_toNat_valid (c : Char) :
    c.toNat < 0xd800 ∨ (0xdfff < c.toNat ∧ c.toNat < 0x110000) := by
  have heq : c.toNat = c.val.toNat := rfl
  rcases c.valid with h | h
  · left; omega
  · right; omega

theorem digitChar_isDigit {k : Nat} (h : k < 10) :
    isDigitChar (Char.ofNat (0x30 + k)) = true := by
  interval_cases k <;> decide

theorem digitChar_val {k : Nat} (h : k < 10) :
    (Char.ofNat (0x30 + k)).toNat - 0x30 = k := by
  interval_cases k <;> decide

theorem hexChar_isHex {k : Nat} (h : k < 16) :
    isHexChar (hexDigitChar k) = true := by
  interval_cases k <;> decide

theorem hexChar_val {k : Nat} (h : k < 16) : hexVal (hexDigitChar k) = k := by
  interval_cases k <;> decide

theorem parseNatAcc_stop (acc : Nat) (rest : List Char)
    (hrest : ∀ c cs, rest = c :: cs → isDigitChar c = false) :
    parseNatAcc acc rest = (acc, rest) := by
  cases rest with
  | nil => rfl
  | cons c cs => simp [parseNatAcc, hrest c cs rfl]

theorem parseNatAcc_natDecChars (n : Nat) : ∀ (acc : Nat) (rest : List Char),
    parseNatAcc acc (natDecChars n ++ rest)
      = parseNatAcc (acc * 10 ^ (natDecChars n).length + n) rest := by
  induction n using Nat.strong_induction_on with
  | _ n ih =>
    intro acc rest
    by_cases h : n < 10
    · rw [natDecChars]
      simp only [h, dite_true, List.singleton_append, List.length_singleton,
        parseNatAcc, digitChar_isDigit h, if_true, digitChar_val h, pow_one]
    · rw [natDecChars]
      simp only [h, dite_false]
      rw [List.append_assoc,
        ih (n / 10) (Nat.div_lt_self (by omega) (by omega)) acc]
      have h10 : n % 10 < 10 := Nat.mod_lt n (by omega)
      simp only [List.singleton_append, parseNatAcc, digitChar_isDigit h10,
        if_true, digitChar_val h10, List.length_append, List.length_singleton]
      have hlen : 10 ^ ((natDecChars (n / 10)).length + 1)
          = 10 ^ (natDecChars (n / 10)).length * 10 := pow_succ 10 _
      have hnd : n / 10 * 10 + n % 10 = n := by omega
      congr 1
      set L := 10 ^ (natDecChars (n / 10)).length with hL
      rw [hlen]
      ring_nf
      omega

theorem natDecChars_cons (n : Nat) :
    ∃ c cs, natDecChars n = c :: cs ∧ isDigitChar c = true := by
  induction n using Nat.strong_induction_on with
  | _ n ih =>
    by_cases h : n < 10
    · exact ⟨_, [], by rw [natDecChars]; simp [h], digitChar_isDigit h⟩
    · obtain ⟨c, cs, hc, hd⟩ := ih (n / 10) (Nat.div_lt_self (by omega) (by omega))
      refine ⟨c, cs ++ [Char.ofNat (0x30 + n % 10)], ?_, hd⟩
      rw [natDecChars]
      simp [h, hc]

theorem parseNatNum_natDecChars (n : Nat) (rest : List Char)
    (hrest : ∀ c cs, rest = c :: cs → isDigitChar c = false) :
    parseNatNum (natDecChars n ++ rest) = some (n, rest) := by
  have H := parseNatAcc_natDecChars n 0 rest
  rw [Nat.zero_mul, Nat.zero_add, parseNatAcc_stop n rest hrest] at H
  obtain ⟨c, cs, hc, hd⟩ := natDecChars_cons n
  rw [hc] at H ⊢
  simp only [List.cons_append, parseNatNum, hd, if_true]
  simp only [List.cons_append, parseNatAcc, hd, if_true, Nat.zero_mul,
    Nat.zero_add, List.append_eq] at H
  rw [H]
theorem char_eq_iff_toNat {c d : Char} : c = d ↔ c.toNat = d.toNat := by
  constructor
  · exact fun h => congrArg Char.toNat h
  · intro h
    rw [← Char.ofNat_toNat c, h, Char.ofNat_toNat]

theorem unescapeOne_escape (c : Char) (tail : List Char) :
    ∃ e es, escapeChar c = e :: es ∧ e ≠ '"' ∧
      unescapeOne e (es ++ tail) = some (c, es.length) := by
  by_cases h1 : c.toNat = 0x5c
  · have hc : c = '\\' := by rw [char_eq_iff_toNat, h1]; rfl
    subst hc
    exact ⟨'\\', ['\\'], by decide, by decide, by simp [unescapeOne]⟩
  by_cases h2 : c.toNat = 0x22
  · have hc : c = '"' := by rw [char_eq_iff_toNat, h2]; rfl
    subst hc
    exact ⟨'\\', ['"'], by decide, by decide, by simp [unescapeOne]⟩
  by_cases h3 : c.toNat = 0x08
  · have hc : c = Char.ofNat 0x08 := by rw [char_eq_iff_toNat, h3]; rfl
    subst hc
    exact ⟨'\\', ['b'], by decide, by decide, by simp [unescapeOne]⟩
  by_cases h4 : c.toNat = 0x09
  · have hc : c = Char.ofNat 0x09 := by rw [char_eq_iff_toNat, h4]; rfl
    subst hc
    exact ⟨'\\', ['t'], by decide, by decide, by simp [unescapeOne]⟩
  by_cases h5 : c.toNat = 0x0a
  · have hc : c = Char.ofNat 0x0a := by rw [char_eq_iff_toNat, h5]; rfl
    subst hc
    exact ⟨'\\', ['n'], by decide, by decide, by simp [unescapeOne]⟩
  by_cases h6 : c.toNat = 0x0c
  · have hc : c = Char.ofNat 0x0c := by rw [char_eq_iff_toNat, h6]; rfl
    subst hc
    exact ⟨'\\', ['f'], by decide, by decide, by simp [unescapeOne]⟩
  by_cases h7 : c.toNat = 0x0d
  · have hc : c = Char.ofNat 0x0d := by rw [char_eq_iff_toNat, h7]; rfl
    subst hc
    exact ⟨'\\', ['r'], by decide, by decide, by simp [unescapeOne]⟩
  by_cases h8 : 0x20 ≤ c.toNat ∧ c.toNat ≤ 0x7e
  · refine ⟨c, [], ?_, ?_, ?_⟩
    · simp [escapeChar, h1, h2, h3, h4, h5, h6, h7, h8.1, h8.2]
    · intro hq
      rw [char_eq_iff_toNat] at hq
      exact h2 hq
    · have hcq : (c = '"') = False := by
        simp only [eq_iff_iff, iff_false]
        intro hq; rw [char_eq_iff_toNat] at hq; exact h2 hq
      have hcb : (c = '\\') = False := by
        simp only [eq_iff_iff, iff_false]
        intro hq; rw [char_eq_iff_toNat] at hq; exact h1 hq
      simp [unescapeOne, hcq, hcb, h8.1, h8.2]
  by_cases h9 : c.toNat < 0x10000
  · have m1 : c.toNat / 4096 % 16 < 16 := Nat.mod_lt _ (by omega)
    have m2 : c.toNat / 256 % 16 < 16 := Nat.mod_lt _ (by omega)
    have m3 : c.toNat / 16 % 16 < 16 := Nat.mod_lt _ (by omega)
    have m4 : c.toNat % 16 < 16 := Nat.mod_lt _ (by omega)
    have e1 := hexChar_isHex m1
    have e2 := hexChar_isHex m2
    have e3 := hexChar_isHex m3
    have e4 := hexChar_isHex m4
    have v1 := hexChar_val m1
    have v2 := hexChar_val m2
    have v3 := hexChar_val m3
    have v4 := hexChar_val m4
    have hrec : ((hexVal (hexDigitChar (c.toNat / 4096 % 16)) * 16 +
        hexVal (hexDigitChar (c.toNat / 256 % 16))) * 16 +
        hexVal (hexDigitChar (c.toNat / 16 % 16))) * 16 +
        hexVal (hexDigitChar (c.toNat % 16)) = c.toNat := by
      rw [v1, v2, v3, v4]; omega
    have hns1 : ¬ (0xd800 ≤ c.toNat ∧ c.toNat ≤ 0xdbff) := by
      rcases char_toNat_valid c with hv | hv <;> omega
    have hns2 : ¬ (0xdc00 ≤ c.toNat ∧ c.toNat ≤ 0xdfff) := by
      rcases char_toNat_valid c with hv | hv <;> omega
    refine ⟨'\\', 'u' :: hex4 c.toNat, ?_, by decide, ?_⟩
    · simp [escapeChar, h1, h2, h3, h4, h5, h6, h7, h8, h9]
    · simp only [hex4, List.cons_append, List.length_cons, List.length_nil]
      simp only [unescapeOne, reduceIte, e1, e2, e3, e4, Bool.and_self, if_true]
      simp only [hrec]
      have hd1 : (decide (0xd800 ≤ c.toNat) && decide (c.toNat ≤ 0xdbff)) = false := by
        rw [Bool.and_eq_false_iff]
        rcases char_toNat_valid c with hv | hv
        · left; simp; omega
        · right; simp; omega
      have hd2 : (decide (0xdc00 ≤ c.toNat) && decide (c.toNat ≤ 0xdfff)) = false := by
        rw [Bool.and_eq_false_iff]
        rcases char_toNat_valid c with hv | hv
        · left; simp; omega
        · right; simp; omega
      simp only [hd1, hd2, Bool.false_eq_true, if_false, Char.ofNat_toNat]
  · have hbig : 0x10000 ≤ c.toNat := by omega
    have hmax : c.toNat < 0x110000 := by
      rcases char_toNat_valid c with hv | hv <;> omega
    have hudiv : (c.toNat - 0x10000) / 1024 < 1024 := by omega
    have humod : (c.toNat - 0x10000) % 1024 < 1024 := Nat.mod_lt _ (by omega)
    set hi := 0xd800 + (c.toNat - 0x10000) / 1024 with hhi
    set lo := 0xdc00 + (c.toNat - 0x10000) % 1024 with hlo
    have m1 : hi / 4096 % 16 < 16 := Nat.mod_lt _ (by omega)
    have m2 : hi / 256 % 16 < 16 := Nat.mod_lt _ (by omega)
    have m3 : hi / 16 % 16 < 16 := Nat.mod_lt _ (by omega)
    have m4 : hi % 16 < 16 := Nat.mod_lt _ (by omega)
    have m5 : lo / 4096 % 16 < 16 := Nat.mod_lt _ (by omega)
    have m6 : lo / 256 % 16 < 16 := Nat.mod_lt _ (by omega)
    have m7 : lo / 16 % 16 < 16 := Nat.mod_lt _ (by omega)
    have m8 : lo % 16 < 16 := Nat.mod_lt _ (by omega)
    have e1 := hexChar_isHex m1
    have e2 := hexChar_isHex m2
    have e3 := hexChar_isHex m3
    have e4 := hexChar_isHex m4
    have e5 := hexChar_isHex m5
    have e6 := hexChar_isHex m6
    have e7 := hexChar_isHex m7
    have e8 := hexChar_isHex m8
    have hrecHi : ((hexVal (hexDigitChar (hi / 4096 % 16)) * 16 +
        hexVal (hexDigitChar (hi / 256 % 16))) * 16 +
        hexVal (hexDigitChar (hi / 16 % 16))) * 16 +
        hexVal (hexDigitChar (hi % 16)) = hi := by
      rw [hexChar_val m1, hexChar_val m2, hexChar_val m3, hexChar_val m4]; omega
    have hrecLo : ((hexVal (hexDigitChar (lo / 4096 % 16)) * 16 +
        hexVal (hexDigitChar (lo / 256 % 16))) * 16 +
        hexVal (hexDigitChar (lo / 16 % 16))) * 16 +
        hexVal (hexDigitChar (lo % 16)) = lo := by
      rw [hexChar_val m5, hexChar_val m6, hexChar_val m7, hexChar_val m8]; omega
    have hd1 : (decide (0xd800 ≤ hi) && decide (hi ≤ 0xdbff)) = true := by
      rw [Bool.and_eq_true]
      constructor <;> simp <;> omega
    have hd2 : (decide (0xdc00 ≤ lo) && decide (lo ≤ 0xdfff)) = true := by
      rw [Bool.and_eq_true]
      constructor <;> simp <;> omega
    have hchar : Char.ofNat (0x10000 + (hi - 0xd800) * 1024 + (lo - 0xdc00)) = c := by
      have : 0x10000 + (hi - 0xd800) * 1024 + (lo - 0xdc00) = c.toNat := by omega
      rw [this, Char.ofNat_toNat]
    refine ⟨'\\', 'u' :: hex4 hi ++ '\\' :: 'u' :: hex4 lo, ?_, by decide, ?_⟩
    · simp [escapeChar, h1, h2, h3, h4, h5, h6, h7, h8, h9, hhi, hlo]
    · simp only [hex4, List.cons_append, List.append_assoc, List.length_cons,
        List.length_append, List.length_nil]
      simp only [unescapeOne, reduceIte, e1, e2, e3, e4, Bool.and_self, if_true]
      simp only [hrecHi, hd1, if_true]
      have hq1 : decide (('\\' : Char) = '\\') = true := by decide
      have hq2 : decide (('u' : Char) = 'u') = true := by decide
      simp only [List.nil_append, hq1, hq2, e5, e6, e7, e8, Bool.and_self,
        Bool.true_and, Bool.and_true, if_true]
      simp only [hrecLo, hd2, if_true, hchar]
      simp

theorem parseStrBody_escape (s : List Char) : ∀ rest : List Char,
    parseStrBody (s.flatMap escapeChar ++ '"' :: rest) = some (s, rest) := by
  induction s with
  | nil => intro rest; simp [parseStrBody]
  | cons c cs ih =>
    intro rest
    rw [List.flatMap_cons, List.append_assoc]
    obtain ⟨e, es, hesc, hne, hun⟩ :=
      unescapeOne_escape c (cs.flatMap escapeChar ++ '"' :: rest)
    rw [hesc]
    simp only [List.cons_append]
    rw [parseStrBody]
    simp only [hne, if_false, hun, List.drop_left, ih rest, Option.map_some]
    rfl
theorem stringMk_data (s : String) : (⟨s.data⟩ : String) = s := by cases s; rfl

theorem digit_not_special {c : Char} (h : isDigitChar c = true) :
    c ≠ 'n' ∧ c ≠ '"' ∧ c ≠ '-' := by
  simp only [isDigitChar, Bool.and_eq_true, decide_eq_true_eq] at h
  refine ⟨?_, ?_, ?_⟩ <;> intro he <;> rw [char_eq_iff_toNat] at he <;>
    simp at he <;> omega

theorem parseVal_serNorm (v : NormVal) (rest : List Char)
    (hrest : ∀ c cs, rest = c :: cs → isDigitChar c = false) :
    parseVal (serNormChars v ++ rest) = some (v, rest) := by
  cases v with
  | nNull => simp [serNormChars, parseVal]
  | nStr s =>
    have hx1 : ('"' : Char) ≠ 'n' := by decide
    have hx2 : (('"' : Char) = '"') = True := by simp
    simp only [serNormChars, jsonStrChars, List.cons_append, List.append_assoc,
      List.singleton_append]
    rw [parseVal]
    simp only [hx1, if_false, hx2, if_true]
    rw [parseStrBody_escape]
    simp [stringMk_data]
  | nInt i =>
    by_cases hi : i < 0
    · have hm1 : ('-' : Char) ≠ 'n' := by decide
      have hm2 : ('-' : Char) ≠ '"' := by decide
      have hm3 : (('-' : Char) = '-') = True := by simp
      simp only [serNormChars, intDecChars, hi, if_true, List.cons_append]
      rw [parseVal]
      simp only [hm1, hm2, if_false, hm3, if_true]
      rw [parseNatNum_natDecChars i.natAbs rest hrest]
      have hcast : -((i.natAbs : Nat) : Int) = i := by omega
      simp only [Option.map_some']
      rw [hcast]
    · simp only [serNormChars, intDecChars, hi, if_false]
      obtain ⟨c, cs, hc, hd⟩ := natDecChars_cons i.natAbs
      obtain ⟨hn1, hn2, hn3⟩ := digit_not_special hd
      rw [hc]
      simp only [List.cons_append]
      rw [parseVal]
      simp only [hn1, hn2, hn3, if_false]
      rw [← List.cons_append, ← hc, parseNatNum_natDecChars i.natAbs rest hrest]
      have hcast : (((i.natAbs : Nat) : Int)) = i := by omega
      simp only [Option.map_some']
      rw [hcast]

theorem objTailChars_head (es : List (String × NormVal)) :
    ∃ c cs, objTailChars es = c :: cs ∧ isDigitChar c = false := by
  cases es with
  | nil => exact ⟨'}', [], rfl, by decide⟩
  | cons e es => exact ⟨',', _, rfl, by decide⟩

theorem parseEntry_ser (k : String) (v : NormVal) (rest : List Char)
    (hrest : ∀ c cs, rest = c :: cs → isDigitChar c = false) :
    parseEntry (serEntryChars (k, v) ++ rest) = some ((k, v), rest) := by
  simp only [serEntryChars, jsonStrChars, List.cons_append, List.append_assoc,
    List.singleton_append]
  rw [parseEntry]
  rw [parseStrBody_escape]
  simp only [List.nil_append]
  rw [parseVal_serNorm v rest hrest]
  simp [stringMk_data]

theorem joinComma_objTail (es : List (String × NormVal)) :
    ∀ e, joinComma ((e :: es).map serEntryChars) ++ ['}']
      = serEntryChars e ++ objTailChars es := by
  induction es with
  | nil => intro e; simp [joinComma, objTailChars]
  | cons e2 es ih =>
    intro e
    simp only [List.map_cons, joinComma, objTailChars] at ih ⊢
    simp only [List.cons_append, List.append_assoc, ih e2]

theorem serRowChars_cons (e : String × NormVal) (es : List (String × NormVal)) :
    serRowChars (e :: es) = '{' :: (serEntryChars e ++ objTailChars es) := by
  simp only [serRowChars, List.cons_append]
  rw [← joinComma_objTail es e]

theorem serRowChars_head (d : List (String × NormVal)) :
    ∃ t, serRowChars d = '{' :: t := ⟨_, rfl⟩

theorem serEntryChars_head (k : String) (v : NormVal) :
    ∃ t, serEntryChars (k, v) = '"' :: t := ⟨_, rfl⟩

theorem objTailChars_length (es : List (String × NormVal)) :
    es.length + 1 ≤ (objTailChars es).length := by
  induction es with
  | nil => simp [objTailChars]
  | cons e es ih =>
    simp only [objTailChars, List.length_cons, List.length_append]
    omega

theorem serRowChars_length (d : List (String × NormVal)) :
    d.length + 1 ≤ (serRowChars d).length := by
  cases d with
  | nil => simp [serRowChars, joinComma]
  | cons e es =>
    rw [serRowChars_cons]
    have := objTailChars_length es
    simp only [List.length_cons, List.length_append]
    omega

theorem parseObjTail_ser (es : List (String × NormVal)) :
    ∀ (fuel : Nat) (rest : List Char), es.length < fuel →
      parseObjTail fuel (objTailChars es ++ rest) = some (es, rest) := by
  induction es with
  | nil =>
    intro fuel rest _
    cases fuel <;> simp [objTailChars, parseObjTail]
  | cons e es ih =>
    intro fuel rest hf
    cases fuel with
    | zero => omega
    | succ f =>
      obtain ⟨k, v⟩ := e
      have hfollow : ∀ c cs, objTailChars es ++ rest = c :: cs →
          isDigitChar c = false := by
        obtain ⟨c0, cs0, heq, hnd⟩ := objTailChars_head es
        intro c' cs' hcc
        rw [heq] at hcc
        simp only [List.cons_append] at hcc
        obtain ⟨rfl, -⟩ := List.cons.inj hcc
        exact hnd
      simp only [objTailChars, List.cons_append, List.append_assoc]
      rw [parseObjTail]
      rw [parseEntry_ser k v (objTailChars es ++ rest) hfollow]
      simp only [ih f rest (by simpa using hf), Option.map_some']

theorem parseObj_ser (d : List (String × NormVal)) (fuel : Nat) (rest : List Char)
    (hf : d.length ≤ fuel) :
    parseObj fuel (serRowChars d ++ rest) = some (d, rest) := by
  cases d with
  | nil => simp [serRowChars, joinComma, parseObj]
  | cons e es =>
    obtain ⟨k, v⟩ := e
    rw [serRowChars_cons]
    obtain ⟨t, ht⟩ := serEntryChars_head k v
    have hfollow : ∀ c cs, objTailChars es ++ rest = c :: cs →
        isDigitChar c = false := by
      obtain ⟨c0, cs0, heq, hnd⟩ := objTailChars_head es
      intro c' cs' hcc
      rw [heq] at hcc
      simp only [List.cons_append] at hcc
      obtain ⟨rfl, -⟩ := List.cons.inj hcc
      exact hnd
    rw [ht]
    simp only [List.cons_append, List.append_assoc]
    rw [parseObj]
    rw [← List.cons_append, ← ht, parseEntry_ser k v (objTailChars es ++ rest) hfollow]
    have hlen : es.length < fuel := by
      simp only [List.length_cons] at hf
      omega
    simp only [parseObjTail_ser es fuel rest hlen, Option.map_some']
    intro r hcc
    obtain ⟨h1, -⟩ := List.cons.inj hcc
    exact absurd h1 (by decide)

theorem joinComma_rowsTail (ds : List (List (String × NormVal))) :
    ∀ d, joinComma ((d :: ds).map serRowChars) ++ [']']
      = serRowChars d ++ rowsTailChars ds := by
  induction ds with
  | nil => intro d; simp [joinComma, rowsTailChars]
  | cons d2 ds ih =>
    intro d
    simp only [List.map_cons, joinComma, rowsTailChars] at ih ⊢
    simp only [List.cons_append, List.append_assoc, ih d2]

theorem rowsTailChars_length (ds : List (List (String × NormVal))) :
    ds.length + 1 ≤ (rowsTailChars ds).length := by
  induction ds with
  | nil => simp [rowsTailChars]
  | cons d ds ih =>
    simp only [rowsTailChars, List.length_cons, List.length_append]
    omega

theorem parseRowsTail_ser (ds : List (List (String × NormVal))) :
    ∀ (fuel : Nat) (rest : List Char), ds.length < fuel →
      parseRowsTail fuel (rowsTailChars ds ++ rest) = some (ds, rest) := by
  induction ds with
  | nil =>
    intro fuel rest _
    cases fuel <;> simp [rowsTailChars, parseRowsTail]
  | cons d ds ih =>
    intro fuel rest hf
    cases fuel with
    | zero => omega
    | succ f =>
      obtain ⟨t, ht⟩ := serRowChars_head d
      simp only [rowsTailChars, List.cons_append, List.append_assoc]
      rw [ht]
      simp only [List.cons_append]
      rw [parseRowsTail]
      rw [← List.cons_append, ← ht]
      have hb : d.length ≤ (serRowChars d ++ (rowsTailChars ds ++ rest)).length := by
        have h1 := serRowChars_length d
        simp only [List.length_append]
        omega
      simp only [parseObj_ser d _ _ hb, Option.map_some']
      simp only [ih f rest (by simpa using hf), Option.map_some']

theorem parseRows_ser (l : List (List (String × NormVal))) :
    parseRows (jsonOfRows l).data = some (l, []) := by
  cases l with
  | nil => rfl
  | cons d ds =>
    have hdata : (jsonOfRows (d :: ds)).data
        = '[' :: (serRowChars d ++ rowsTailChars ds) := by
      show ('[' :: joinComma ((d :: ds).map serRowChars)) ++ [']']
          = '[' :: (serRowChars d ++ rowsTailChars ds)
      simp only [List.cons_append]
      rw [joinComma_rowsTail ds d]
    rw [hdata]
    obtain ⟨t, ht⟩ := serRowChars_head d
    rw [ht]
    simp only [List.cons_append]
    rw [parseRows]
    rw [← List.cons_append, ← ht]
    have hb : d.length ≤ (serRowChars d ++ rowsTailChars ds).length := by
      have h1 := serRowChars_length d
      simp only [List.length_append]
      omega
    simp only [parseObj_ser d _ _ hb, Option.map_some']
    have h2 := parseRowsTail_ser ds (rowsTailChars ds).length []
      (by have := rowsTailChars_length ds; omega)
    rw [List.append_nil] at h2
    simp only [h2, Option.map_some']
    intro r hcc
    obtain ⟨h1, -⟩ := List.cons.inj hcc
    exact absurd h1 (by decide)

theorem jsonOfRows_inj {l1 l2 : List (List (String × NormVal))}
    (h : jsonOfRows l1 = jsonOfRows l2) : l1 = l2 := by
  have h1 := parseRows_ser l1
  have h2 := parseRows_ser l2
  rw [h, h2] at h1
  simp only [Option.some_inj, Prod.mk.injEq] at h1
  exact h1.1.symm

theorem hashInput_eq_iff (rows1 : List (List PyVal)) (columns1 : List String)
    (rows2 : List (List PyVal)) (columns2 : List String) :
    hashInput rows1 columns1 = hashInput rows2 columns2 ↔
      normalize_results rows1 columns1 = normalize_results rows2 columns2 := by
  constructor
  · intro h
    simp only [hashInput] at h
    cases h1 : normalize_results rows1 columns1 with
    | none =>
      cases h2 : normalize_results rows2 columns2 with
      | none => rfl
      | some b => rw [h1, h2] at h; simp at h
    | some a =>
      cases h2 : normalize_results rows2 columns2 with
      | none => rw [h1, h2] at h; simp at h
      | some b =>
        rw [h1, h2] at h
        simp only [Option.map_some', Option.some_inj] at h
        rw [jsonOfRows_inj h]
  · intro h
    simp only [hashInput, h]

/-- C2 counterexample: two result sets that are not the same multiset of
labeled rows — the single cell differs by surrounding whitespace — hash
identically, because value normalization strips the whitespace before
serialization. -/
theorem generate_hash_value_change_collision :
    generate_hash [[.vStr " x"]] ["a"] = generate_hash [[.vStr "x"]] ["a"] ∧
      ([[PyVal.vStr " x"]] : List (List PyVal)) ≠ [[PyVal.vStr "x"]] :=
  ⟨rfl, by decide⟩

/-- C2 (amended): the serialized string fed to SHA-256 is identical exactly
when the normalized canonical forms are identical — so any difference that
survives value normalization (whitespace stripping, byte decoding,
duplicate-column shadowing) changes the digest's pre-image, while a
difference erased by normalization leaves the digest unchanged. -/
theorem generate_hash_discriminates_normalized (rows1 : List (List PyVal))
    (columns1 : List String) (rows2 : List (List PyVal)) (columns2 : List String) :
    (hashInput rows1 columns1 = hashInput rows2 columns2 ↔
      normalize_results rows1 columns1 = normalize_results rows2 columns2) ∧
    (normalize_results rows1 columns1 = normalize_results rows2 columns2 →
      generate_hash rows1 columns1 = generate_hash rows2 columns2) := by
  refine ⟨hashInput_eq_iff rows1 columns1 rows2 columns2, fun h => ?_⟩
  rw [generate_hash_eq_map_hashInput, generate_hash_eq_map_hashInput]
  have : hashInput rows1 columns1 = hashInput rows2 columns2 :=
    (hashInput_eq_iff rows1 columns1 rows2 columns2).mpr h
  rw [this]

/-- C2 witness: a surviving difference (1 versus 2 in the only cell)
yields different hash inputs, through the amended theorem. -/
theorem generate_hash_discriminates_normalized_witness :
    hashInput [[.vInt 1]] ["a"] ≠ hashInput [[.vInt 2]] ["a"] := by
  intro h
  have hn :=
    (generate_hash_discriminates_normalized [[.vInt 1]] ["a"] [[.vInt 2]] ["a"]).1.mp h
  exact absurd hn (by decide)

theorem opt_isSome_map (f : α → β) (o : Option α) :
    (Option.map f o).isSome = o.isSome := by cases o <;> rfl

theorem normalizeValue_isSome (v : PyVal) (hblob : blobDecodes v = true) :
    (normalizeValue v).isSome := by
  cases v with
  | vNull => rfl
  | vInt i => rfl
  | vStr s => rfl
  | vBlob bs =>
    simp only [blobDecodes] at hblob
    simp only [normalizeValue, opt_isSome_map]
    exact hblob

theorem buildRowFrom_isSome (row : List PyVal) :
    ∀ (cols : List String) (i : Nat) (acc : List (String × NormVal)),
      i + cols.length ≤ row.length →
      (∀ v ∈ row, blobDecodes v = true) →
      (buildRowFrom row i cols acc).isSome := by
  intro cols
  induction cols with
  | nil => intro i acc _ _; rfl
  | cons col cols ih =>
    intro i acc hlen hnorm
    have hi : i < row.length := by simp only [List.length_cons] at hlen; omega
    cases hv : row.get? i with
    | none => rw [List.get?_eq_none] at hv; omega
    | some v =>
      have hmem : v ∈ row := List.get?_mem hv
      have hn := normalizeValue_isSome v (hnorm v hmem)
      simp only [buildRowFrom, hv]
      cases hnv : normalizeValue v with
      | none => rw [hnv] at hn; simp at hn
      | some nv =>
        exact ih (i + 1) _ (by simp only [List.length_cons] at hlen; omega) hnorm

theorem buildRows_isSome (columns : List String) (rows : List (List PyVal))
    (h : ∀ r ∈ rows, (buildRow columns r).isSome) :
    (buildRows columns rows).isSome := by
  induction rows with
  | nil => rfl
  | cons r rs ih =>
    have h1 := h r (by simp)
    simp only [buildRows]
    cases hb : buildRow columns r with
    | none => rw [hb] at h1; simp at h1
    | some d =>
      simp only [opt_isSome_map]
      exact ih (fun r hr => h r (by simp [hr]))

/-- C9 counterexample: a BLOB cell holding the single byte `0xff` (a
supported SQLite value) makes `generate_hash` raise a
`UnicodeDecodeError` (modelled `none`) instead of producing a digest. -/
theorem generate_hash_invalid_utf8_raises :
    generate_hash [[.vBlob [255]]] ["a"] = none := rfl

/-- C9 (amended): for every column list and every row list aligned to it
whose BLOB cells are valid UTF-8, `generate_hash` succeeds and returns a
digest (in particular for the empty result set). -/
theorem generate_hash_total_for_valid_blobs (rows : List (List PyVal))
    (columns : List String)
    (halign : ∀ r ∈ rows, columns.length ≤ r.length)
    (hblob : ∀ r ∈ rows, ∀ v ∈ r, blobDecodes v = true) :
    (generate_hash rows columns).isSome := by
  simp only [generate_hash, normalize_results, opt_isSome_map]
  exact buildRows_isSome columns rows (fun r hr =>
    buildRowFrom_isSome r columns 0 [] (by have := halign r hr; omega)
      (hblob r hr))

/-- C9 witness: a mixed row (integer, null, string, UTF-8 blob) hashes
successfully, and so does the empty result set. -/
theorem generate_hash_total_for_valid_blobs_witness :
    (generate_hash [[.vInt 1, .vNull, .vStr " a ", .vBlob [104, 105]]]
      ["w", "x", "y", "z"]).isSome ∧
    (generate_hash [] ["w"]).isSome :=
  ⟨generate_hash_total_for_valid_blobs _ _ (by decide) (by decide),
   generate_hash_total_for_valid_blobs _ _ (by decide) (by decide)⟩
theorem dictLookup_dictInsert (k k' : String) (v : α) (d : List (String × α)) :
    dictLookup (dictInsert k v d) k' = if k' = k then some v else dictLookup d k' := by
  induction d with
  | nil => simp [dictInsert, dictLookup]
  | cons e rest ih =>
    obtain ⟨k2, v2⟩ := e
    simp only [dictInsert]
    by_cases h1 : k = k2
    · subst h1
      simp only [if_pos rfl, dictLookup]
      by_cases h2 : k' = k <;> simp [h2]
    · rw [if_neg h1]
      by_cases h3 : k < k2
      · rw [if_pos h3]
        by_cases h2 : k' = k <;> simp [dictLookup, h2]
      · rw [if_neg h3]
        simp only [dictLookup, ih]
        by_cases h2 : k' = k2
        · subst h2
          have hne : k' ≠ k := fun he => h1 he.symm
          simp [hne]
        · simp [h2]

theorem mem_dictInsert (e : String × α) (k : String) (v : α) (d : List (String × α)) :
    e ∈ dictInsert k v d → e.1 = k ∨ e ∈ d := by
  induction d with
  | nil => intro h; simp only [dictInsert, List.mem_singleton] at h; left; rw [h]
  | cons e2 rest ih =>
    obtain ⟨k2, v2⟩ := e2
    simp only [dictInsert]
    by_cases h1 : k = k2
    · rw [if_pos h1]
      intro h
      rcases List.mem_cons.mp h with h | h
      · left; rw [h]
      · right; simp [h]
    · rw [if_neg h1]
      by_cases h3 : k < k2
      · rw [if_pos h3]
        intro h
        rcases List.mem_cons.mp h with h | h
        · left; rw [h]
        · right; exact h
      · rw [if_neg h3]
        intro h
        rcases List.mem_cons.mp h with h | h
        · right; simp [h]
        · rcases ih h with h | h
          · left; exact h
          · right; simp [h]

theorem dictInsert_pairwise (k : String) (v : α) (d : List (String × α))
    (h : d.Pairwise (fun a b => a.1 < b.1)) :
    (dictInsert k v d).Pairwise (fun a b => a.1 < b.1) := by
  induction d with
  | nil => simp [dictInsert]
  | cons e2 rest ih =>
    obtain ⟨k2, v2⟩ := e2
    rw [List.pairwise_cons] at h
    obtain ⟨hlt, hrest⟩ := h
    simp only [dictInsert]
    by_cases h1 : k = k2
    · subst h1
      rw [if_pos rfl, List.pairwise_cons]
      exact ⟨fun b hb => hlt b hb, hrest⟩
    · rw [if_neg h1]
      by_cases h3 : k < k2
      · rw [if_pos h3, List.pairwise_cons]
        refine ⟨?_, ?_⟩
        · intro b hb
          rcases List.mem_cons.mp hb with rfl | hb
          · exact h3
          · exact lt_trans h3 (hlt b hb)
        · rw [List.pairwise_cons]
          exact ⟨fun b hb => hlt b hb, hrest⟩
      · rw [if_neg h3, List.pairwise_cons]
        have hk2k : k2 < k := by
          rcases lt_trichotomy k k2 with h | h | h
          · exact absurd h h3
          · exact absurd h h1
          · exact h
        refine ⟨?_, ih hrest⟩
        intro b hb
        rcases mem_dictInsert b k v rest hb with hb | hb
        · rw [hb]; exact hk2k
        · exact hlt b hb

theorem dictLookup_none_of_lt (d : List (String × α)) (k : String)
    (h : ∀ e ∈ d, k < e.1) : dictLookup d k = none := by
  induction d with
  | nil => rfl
  | cons e rest ih =>
    obtain ⟨k2, v2⟩ := e
    have hk : k < k2 := h (k2, v2) (by simp)
    simp only [dictLookup, if_neg (ne_of_lt hk)]
    exact ih (fun e he => h e (by simp [he]))

theorem dict_ext {d1 d2 : List (String × α)}
    (h1 : d1.Pairwise (fun a b => a.1 < b.1))
    (h2 : d2.Pairwise (fun a b => a.1 < b.1))
    (h : ∀ name, dictLookup d1 name = dictLookup d2 name) : d1 = d2 := by
  induction d1 generalizing d2 with
  | nil =>
    cases d2 with
    | nil => rfl
    | cons e2 t2 =>
      obtain ⟨k2, v2⟩ := e2
      have := h k2
      simp [dictLookup] at this
  | cons e1 t1 ih =>
    obtain ⟨k1, v1⟩ := e1
    cases d2 with
    | nil =>
      have := h k1
      simp [dictLookup] at this
    | cons e2 t2 =>
      obtain ⟨k2, v2⟩ := e2
      rw [List.pairwise_cons] at h1 h2
      obtain ⟨hlt1, ht1⟩ := h1
      obtain ⟨hlt2, ht2⟩ := h2
      have hk : k1 = k2 := by
        rcases lt_trichotomy k1 k2 with hc | hc | hc
        · exfalso
          have hx := h k1
          simp only [dictLookup, if_pos rfl] at hx
          rw [if_neg (ne_of_lt hc)] at hx
          rw [dictLookup_none_of_lt t2 k1
            (fun e he => lt_trans hc (hlt2 e he))] at hx
          cases hx
        · exact hc
        · exfalso
          have hx := h k2
          simp only [dictLookup, if_pos rfl] at hx
          rw [if_neg (ne_of_lt hc)] at hx
          rw [dictLookup_none_of_lt t1 k2
            (fun e he => lt_trans hc (hlt1 e he))] at hx
          cases hx
      subst hk
      have hv : v1 = v2 := by
        have hx := h k1
        simp only [dictLookup, if_pos rfl] at hx
        exact Option.some_inj.mp hx
      subst hv
      have htails : ∀ name, dictLookup t1 name = dictLookup t2 name := by
        intro name
        by_cases hn : name = k1
        · subst hn
          rw [dictLookup_none_of_lt t1 name hlt1,
            dictLookup_none_of_lt t2 name hlt2]
        · have hx := h name
          simp only [dictLookup, if_neg hn] at hx
          exact hx
      rw [ih ht1 ht2 htails]

theorem lastIdxFrom_spec (name : String) :
    ∀ (cols : List String) (j : Nat), lastIdxFrom cols name = some j →
      j < cols.length ∧ cols.get? j = some name := by
  intro cols
  induction cols with
  | nil => intro j h; cases h
  | cons c cs ih =>
    intro j h
    simp only [lastIdxFrom] at h
    cases hl : lastIdxFrom cs name with
    | some j' =>
      rw [hl] at h
      cases h
      obtain ⟨hlt, hget⟩ := ih j' hl
      exact ⟨by simp; omega, by simpa using hget⟩
    | none =>
      rw [hl] at h
      by_cases hc : c = name
      · rw [if_pos hc] at h
        cases h
        exact ⟨by simp, by simp [hc]⟩
      · rw [if_neg hc] at h
        cases h

theorem buildRowFrom_lookup (row : List PyVal) :
    ∀ (cols : List String) (i : Nat) (acc d : List (String × NormVal)),
      buildRowFrom row i cols acc = some d →
      ∀ name,
        dictLookup d name =
          match lastIdxFrom cols name with
          | some j => (row.get? (i + j)).bind normalizeValue
          | none => dictLookup acc name := by
  intro cols
  induction cols with
  | nil =>
    intro i acc d h name
    simp only [buildRowFrom, Option.some_inj] at h
    subst h
    rfl
  | cons col cols ih =>
    intro i acc d h name
    simp only [buildRowFrom] at h
    cases hv : row.get? i with
    | none => simp only [hv] at h; cases h
    | some v =>
      simp only [hv] at h
      cases hnv : normalizeValue v with
      | none => simp only [hnv] at h; cases h
      | some nv =>
        simp only [hnv] at h
        rw [ih (i + 1) (dictInsert col nv acc) d h name]
        simp only [lastIdxFrom]
        cases hl : lastIdxFrom cols name with
        | some j =>
          simp only [hl]
          rw [show i + 1 + j = i + (j + 1) from by omega]
        | none =>
          simp only [hl]
          rw [dictLookup_dictInsert]
          by_cases hc : col = name
          · subst hc
            simp only [eq_self_iff_true, if_true, Nat.add_zero]
            rw [hv]
            simp [hnv]
          · have hn : ¬ name = col := fun he => hc he.symm
            simp [hc, hn]

theorem buildRowFrom_pairwise (row : List PyVal) :
    ∀ (cols : List String) (i : Nat) (acc d : List (String × NormVal)),
      acc.Pairwise (fun a b => a.1 < b.1) →
      buildRowFrom row i cols acc = some d →
      d.Pairwise (fun a b => a.1 < b.1) := by
  intro cols
  induction cols with
  | nil =>
    intro i acc d hacc h
    simp only [buildRowFrom, Option.some_inj] at h
    subst h
    exact hacc
  | cons col cols ih =>
    intro i acc d hacc h
    simp only [buildRowFrom] at h
    cases hv : row.get? i with
    | none => simp only [hv] at h; cases h
    | some v =>
      simp only [hv] at h
      cases hnv : normalizeValue v with
      | none => simp only [hnv] at h; cases h
      | some nv =>
        simp only [hnv] at h
        exact ih (i + 1) _ d (dictInsert_pairwise col nv acc hacc) h

theorem buildRow_eq_of_lastAgree (columns : List String)
    (r1 r2 : List PyVal) (d1 d2 : List (String × NormVal))
    (h1 : buildRow columns r1 = some d1) (h2 : buildRow columns r2 = some d2)
    (hagree : ∀ name j, lastIdxFrom columns name = some j →
      r1.get? j = r2.get? j) :
    d1 = d2 := by
  apply dict_ext (buildRowFrom_pairwise r1 columns 0 [] d1 (by simp) h1)
    (buildRowFrom_pairwise r2 columns 0 [] d2 (by simp) h2)
  intro name
  rw [buildRowFrom_lookup r1 columns 0 [] d1 h1 name,
    buildRowFrom_lookup r2 columns 0 [] d2 h2 name]
  cases hl : lastIdxFrom columns name with
  | some j =>
    have hr := hagree name j hl
    simp only [hl, Nat.zero_add, hr]
  | none => simp only [hl]

theorem buildRows_congr (columns : List String) :
    ∀ (rows1 rows2 : List (List PyVal)), rows1.length = rows2.length →
      (∀ k, k < rows1.length →
        buildRow columns (rows1.getD k []) = buildRow columns (rows2.getD k [])) →
      buildRows columns rows1 = buildRows columns rows2 := by
  intro rows1
  induction rows1 with
  | nil =>
    intro rows2 hlen _
    cases rows2 with
    | nil => rfl
    | cons r rs => simp at hlen
  | cons r1 rs1 ih =>
    intro rows2 hlen hrow
    cases rows2 with
    | nil => simp at hlen
    | cons r2 rs2 =>
      have h0 := hrow 0 (by simp)
      rw [show (r1 :: rs1).getD 0 [] = r1 from rfl,
        show (r2 :: rs2).getD 0 [] = r2 from rfl] at h0
      simp only [buildRows]
      rw [h0]
      have htail : buildRows columns rs1 = buildRows columns rs2 := by
        apply ih rs2 (by simpa using hlen)
        intro k hk
        have := hrow (k + 1) (by simp; omega)
        simpa using this
      rw [htail]

/-- C10: when the column list repeats a name, each row's normalized
mapping keeps only the value at the last position bearing that name; so
two result sets over the same columns that agree at every last occurrence
(though differing at an earlier duplicated occurrence) hash identically. -/
theorem generate_hash_duplicate_column_last_wins (columns : List String)
    (rows1 rows2 : List (List PyVal))
    (hdup : ∃ i, i < columns.length ∧
      lastIdxFrom columns (columns.getD i "") ≠ some i)
    (hlen : rows1.length = rows2.length)
    (hok1 : ∀ k, k < rows1.length → (buildRow columns (rows1.getD k [])).isSome)
    (hok2 : ∀ k, k < rows2.length → (buildRow columns (rows2.getD k [])).isSome)
    (hagree : ∀ k, k < rows1.length → ∀ j, j < columns.length →
      lastIdxFrom columns (columns.getD j "") = some j →
      (rows1.getD k []).get? j = (rows2.getD k []).get? j)
    (hdiff : ∃ k, k < rows1.length ∧ ∃ i, i < columns.length ∧
      lastIdxFrom columns (columns.getD i "") ≠ some i ∧
      (rows1.getD k []).get? i ≠ (rows2.getD k []).get? i) :
    generate_hash rows1 columns = generate_hash rows2 columns ∧
    (∀ r d name j, buildRow columns r = some d →
      lastIdxFrom columns name = some j →
      dictLookup d name = (r.get? j).bind normalizeValue) := by
  constructor
  · have hbr : buildRows columns rows1 = buildRows columns rows2 := by
      apply buildRows_congr columns rows1 rows2 hlen
      intro k hk
      cases hb1 : buildRow columns (rows1.getD k []) with
      | none =>
        have := hok1 k hk
        rw [hb1] at this
        simp at this
      | some d1 =>
        cases hb2 : buildRow columns (rows2.getD k []) with
        | none =>
          have := hok2 k (by omega)
          rw [hb2] at this
          simp at this
        | some d2 =>
          have hd : d1 = d2 := by
            apply buildRow_eq_of_lastAgree columns _ _ d1 d2 hb1 hb2
            intro name j hl
            obtain ⟨hjlt, hget⟩ := lastIdxFrom_spec name columns j hl
            have hname : columns.getD j "" = name := by
              simp only [List.getD]
              rw [hget]
              rfl
            exact hagree k hk j hjlt (by rw [hname]; exact hl)
          rw [hd]
    simp only [generate_hash, normalize_results, hbr]
  · intro r d name j hb hl
    have hlk := buildRowFrom_lookup r columns 0 [] d hb name
    rw [hlk]
    simp only [hl, Nat.zero_add]

/-- C10 witness: with the duplicated column list `["a", "a"]`, rows that
differ only at the first (shadowed) position hash identically. -/
theorem generate_hash_duplicate_column_last_wins_witness :
    generate_hash [[.vInt 1, .vInt 2]] ["a", "a"]
      = generate_hash [[.vInt 3, .vInt 2]] ["a", "a"] :=
  (generate_hash_duplicate_column_last_wins ["a", "a"] [[.vInt 1, .vInt 2]]
    [[.vInt 3, .vInt 2]] (by decide) (by decide) (by decide) (by decide)
    (by decide) (by decide)).1

theorem char_toNat_ofNat_valid {n : Nat} (h : n.isValidChar) :
    (Char.ofNat n).toNat = n := by
  simp [Char.ofNat, h, Char.ofNatAux, Char.toNat, UInt32.toNat, BitVec.toNat_ofNatLt]

theorem pyIsSpace_iff (c : Char) : pyIsSpace c = true ↔
    ((0x09 ≤ c.toNat ∧ c.toNat ≤ 0x0d) ∨ (0x1c ≤ c.toNat ∧ c.toNat ≤ 0x1f) ∨
      c.toNat = 0x20 ∨ c.toNat = 0x85 ∨ c.toNat = 0xa0 ∨ c.toNat = 0x1680 ∨
      (0x2000 ≤ c.toNat ∧ c.toNat ≤ 0x200a) ∨ c.toNat = 0x2028 ∨
      c.toNat = 0x2029 ∨ c.toNat = 0x202f ∨ c.toNat = 0x205f ∨
      c.toNat = 0x3000) := by
  simp [pyIsSpace]
  tauto

theorem pyIsSpace_asciiUpper (c : Char) :
    pyIsSpace (asciiUpperChar c) = pyIsSpace c := by
  simp only [asciiUpperChar]
  by_cases h : 0x61 ≤ c.toNat ∧ c.toNat ≤ 0x7a
  · have hv : (c.toNat - 32).isValidChar := by left; omega
    rw [if_pos (by simp [h.1, h.2])]
    rw [Bool.eq_iff_iff, pyIsSpace_iff, pyIsSpace_iff,
      char_toNat_ofNat_valid hv]
    omega
  · rw [if_neg (by simpa using h)]

theorem hasSub_iff_isInfix (hay needle : List Char) :
    hasSub hay needle = true ↔ needle <:+: hay := by
  induction hay with
  | nil =>
    simp only [hasSub, Bool.or_false]
    rw [List.isPrefixOf_iff_prefix]
    constructor
    · exact fun h => h.isInfix
    · intro h
      rw [List.infix_nil] at h
      simp [h]
  | cons a t ih =>
    simp only [hasSub, Bool.or_eq_true, ih]
    rw [List.isPrefixOf_iff_prefix, List.infix_cons_iff]

theorem infix_dropWhile_of_head (p : Char → Bool) (c : Char) (m' : List Char)
    (hc : p c = false) :
    ∀ (a b : List Char), (c :: m') <:+: List.dropWhile p (a ++ (c :: m') ++ b) := by
  intro a
  induction a with
  | nil =>
    intro b
    simp only [List.nil_append, List.cons_append, List.dropWhile_cons, hc,
      Bool.false_eq_true, if_false]
    exact ⟨[], b, by simp⟩
  | cons x a ih =>
    intro b
    by_cases hx : p x
    · simp only [List.cons_append, List.dropWhile_cons, hx, if_true]
      exact ih b
    · simp only [List.cons_append, List.dropWhile_cons, hx, Bool.false_eq_true,
        if_false]
      refine ⟨x :: a, b, ?_⟩
      simp

theorem pyStripChars_within (l : List Char) : pyStripChars l <:+: l := by
  unfold pyStripChars
  have h1 : List.dropWhile pyIsSpace l <:+: l := (List.dropWhile_suffix _).isInfix
  have h2 : List.dropWhile pyIsSpace (List.dropWhile pyIsSpace l).reverse <:+:
      (List.dropWhile pyIsSpace l).reverse := (List.dropWhile_suffix _).isInfix
  have h3 : (List.dropWhile pyIsSpace (List.dropWhile pyIsSpace l).reverse).reverse <:+:
      List.dropWhile pyIsSpace l := by
    rw [← List.reverse_infix]
    simpa using h2
  exact h3.trans h1

theorem infix_strip_iff (m l : List Char) (cF : Char) (mF : List Char)
    (hhead : m = cF :: mF) (hF : pyIsSpace cF = false)
    (cL : Char) (mL : List Char)
    (hlast : m.reverse = cL :: mL) (hL : pyIsSpace cL = false) :
    m <:+: pyStripChars l ↔ m <:+: l := by
  constructor
  · exact fun h => h.trans (pyStripChars_within l)
  · rintro ⟨a, b, rfl⟩
    unfold pyStripChars
    have s1 : m <:+: List.dropWhile pyIsSpace (a ++ m ++ b) := by
      rw [hhead]
      exact infix_dropWhile_of_head pyIsSpace cF mF hF a b
    obtain ⟨a1, b1, he1⟩ := s1
    have hrev : (List.dropWhile pyIsSpace (a ++ m ++ b)).reverse
        = b1.reverse ++ m.reverse ++ a1.reverse := by
      rw [← he1]
      simp [List.reverse_append]
    have s2 : m.reverse <:+:
        List.dropWhile pyIsSpace (List.dropWhile pyIsSpace (a ++ m ++ b)).reverse := by
      rw [hrev, hlast]
      exact infix_dropWhile_of_head pyIsSpace cL mL hL b1.reverse a1.reverse
    refine List.reverse_infix.mp ?_
    rw [List.reverse_reverse]
    exact s2

theorem dropWhile_upper (l : List Char) :
    List.dropWhile pyIsSpace (l.map asciiUpperChar)
      = (List.dropWhile pyIsSpace l).map asciiUpperChar := by
  have hfun : (pyIsSpace ∘ asciiUpperChar) = pyIsSpace := funext pyIsSpace_asciiUpper
  rw [List.dropWhile_map, hfun]

theorem reverse_map_upper (l : List Char) :
    (l.map asciiUpperChar).reverse = l.reverse.map asciiUpperChar := by
  simp [List.map_reverse]

theorem strip_asciiUpper_comm (l : List Char) :
    (pyStripChars l).map asciiUpperChar = pyStripChars (l.map asciiUpperChar) := by
  unfold pyStripChars
  simp only [dropWhile_upper, reverse_map_upper]

theorem hasSub_strip_upper (q k : String) (cF : Char) (mF : List Char)
    (hhead : k.data = cF :: mF) (hF : pyIsSpace cF = false)
    (cL : Char) (mL : List Char)
    (hlast : k.data.reverse = cL :: mL) (hL : pyIsSpace cL = false) :
    hasSub (asciiUpper (pyStrip q)).data k.data
      = hasSub (asciiUpper q).data k.data := by
  rw [Bool.eq_iff_iff, hasSub_iff_isInfix, hasSub_iff_isInfix]
  have hd : (asciiUpper (pyStrip q)).data = pyStripChars ((asciiUpper q).data) := by
    show (pyStripChars q.data).map asciiUpperChar
      = pyStripChars (q.data.map asciiUpperChar)
    exact strip_asciiUpper_comm q.data
  rw [hd]
  exact infix_strip_iff k.data _ cF mF hhead hF cL mL hlast hL

theorem dangerous_any_strip (q : String) :
    dangerous_keywords.any
        (fun k => hasSub (asciiUpper (pyStrip q)).data k.data)
      = dangerous_keywords.any (fun k => hasSub (asciiUpper q).data k.data) := by
  have he : ∀ k ∈ dangerous_keywords,
      hasSub (asciiUpper (pyStrip q)).data k.data
        = hasSub (asciiUpper q).data k.data := by
    intro k hk
    fin_cases hk <;>
      exact hasSub_strip_upper q _ _ _ rfl (by decide) _ _ rfl (by decide)
  rw [Bool.eq_iff_iff, List.any_eq_true, List.any_eq_true]
  constructor
  · rintro ⟨k, hk, hs⟩
    exact ⟨k, hk, by rw [← he k hk]; exact hs⟩
  · rintro ⟨k, hk, hs⟩
    exact ⟨k, hk, by rw [he k hk]; exact hs⟩

theorem is_safe_query_false_iff (query : String) :
    is_safe_query query = false ↔
      ((pyStrip query).data = [] ∨
        strStartsWith (asciiUpper (pyStrip query)) "SELECT" = false ∨
        dangerous_keywords.any
          (fun k => hasSub (asciiUpper query).data k.data) = true) := by
  unfold is_safe_query
  rw [← dangerous_any_strip]
  by_cases h1 : (pyStrip query).data.isEmpty
  · simp [h1, List.isEmpty_iff.mp h1]
  · have h1' : ¬ (pyStrip query).data = [] := by
      intro h; exact h1 (by simp [h])
    simp only [h1, Bool.false_eq_true, if_false, h1', false_or]
    by_cases h2 : strStartsWith (asciiUpper (pyStrip query)) "SELECT"
    · simp [h2]
    · simp [Bool.eq_false_iff.mpr h2]

theorem execute_query_unsafe_iff_gate (db : RunOutcome) (query : String) (t : Nat) :
    QueryExecutor.execute_query db query t = .error (.unsafeQuery unsafeQueryMsg)
      ↔ is_safe_query query = false := by
  unfold QueryExecutor.execute_query
  by_cases h : is_safe_query query
  · simp only [h, not_true_eq_false, if_false]
    cases db <;> simp [Bool.eq_false_iff, h]
  · simp [h, Bool.eq_false_iff.mpr h]

/-- **C3.** The read-only sandbox raises `UnsafeQueryError` exactly when the
query is empty/whitespace-only, or its stripped uppercased form does not
begin with `SELECT`, or its uppercased text contains a blocklist keyword as
a substring; and a rejected statement is rejected identically whatever the
database would have done — the connection is never consulted. -/
theorem execute_query_unsafe_query_characterization
    (db : RunOutcome) (query : String) (timeout_seconds : Nat) :
    (QueryExecutor.execute_query db query timeout_seconds
        = .error (.unsafeQuery unsafeQueryMsg)
      ↔ ((pyStrip query).data = [] ∨
          strStartsWith (asciiUpper (pyStrip query)) "SELECT" = false ∨
          dangerous_keywords.any
            (fun k => hasSub (asciiUpper query).data k.data) = true))
    ∧ (QueryExecutor.execute_query db query timeout_seconds
          = .error (.unsafeQuery unsafeQueryMsg) →
        ∀ db' : RunOutcome,
          QueryExecutor.execute_query db' query timeout_seconds
            = .error (.unsafeQuery unsafeQueryMsg)) := by
  refine ⟨(execute_query_unsafe_iff_gate db query timeout_seconds).trans
    (is_safe_query_false_iff query), fun h db' => ?_⟩
  exact (execute_query_unsafe_iff_gate db' query timeout_seconds).mpr
    ((execute_query_unsafe_iff_gate db query timeout_seconds).mp h)

theorem execute_query_unsafe_query_characterization_witness :
    QueryExecutor.execute_query (.ok ["a"] [] 3) "  drop table users" 5
      = .error (.unsafeQuery unsafeQueryMsg) :=
  (execute_query_unsafe_query_characterization (.ok ["a"] [] 3)
      "  drop table users" 5).1.mpr (Or.inr (Or.inr (by decide)))

theorem rawRowDictFrom_isSome (row : List PyVal) :
    ∀ (cols : List String) (i : Nat) (acc : List (String × PyVal)),
      i + cols.length ≤ row.length →
      (rawRowDictFrom row i cols acc).isSome := by
  intro cols
  induction cols with
  | nil => intro i acc _; simp [rawRowDictFrom]
  | cons c cs ih =>
    intro i acc h
    have hi : i < row.length := by simp at h; omega
    obtain ⟨v, hv⟩ : ∃ v, row.get? i = some v :=
      ⟨row.get ⟨i, hi⟩, List.get?_eq_get hi⟩
    simp only [rawRowDictFrom, hv]
    exact ih (i + 1) _ (by simp at h ⊢; omega)

theorem optionTraverse_isSome (f : α → Option β) (l : List α)
    (h : ∀ x ∈ l, (f x).isSome) : (optionTraverse f l).isSome := by
  induction l with
  | nil => simp [optionTraverse]
  | cons x xs ih =>
    obtain ⟨y, hy⟩ := Option.isSome_iff_exists.mp (h x (by simp))
    simp only [optionTraverse, hy]
    have := ih (fun z hz => h z (by simp [hz]))
    obtain ⟨ys, hys⟩ := Option.isSome_iff_exists.mp this
    simp [hys]

theorem execute_query_ok_inv (db : RunOutcome) (query : String) (t : Nat)
    (cols : List String) (rows : List (List PyVal)) (e : Nat)
    (h : QueryExecutor.execute_query db query t = .ok (cols, rows, e)) :
    db = .ok cols rows e := by
  unfold QueryExecutor.execute_query at h
  by_cases hs : is_safe_query query
  · simp only [hs, not_true_eq_false, if_false] at h
    cases db with
    | ok c r el => simp at h; simp [h.1, h.2.1, h.2.2]
    | timesOut => simp at h
    | sqliteError m => simp at h
    | otherError m => simp at h
  · simp [hs] at h


/-- **C4.** Each executor entry point returns a well-formed result rather
than raising: for rows the driver actually produces (each at least as long
as the column list), `execute_student_query` returns a result dict, with a
null error message on success and, on every failure, `success = False`,
empty columns/results, row count `0` and a nonempty error message; and
`execute_lab_query` always returns such a well-formed result dict. -/
theorem executors_return_wellformed_results
    (db : RunOutcome) (ldb : LabDbOutcome) (query : String) (timeout : Nat)
    (doneInTime : Bool) (elapsedMs : Nat)
    (halign : ∀ cols rows t, db = .ok cols rows t →
      ∀ row ∈ rows, cols.length ≤ row.length) :
    (∃ r : StudentResult, execute_student_query db query timeout = some r ∧
        (r.success = true → r.error_message = none) ∧
        (r.success = false →
          r.columns = [] ∧ r.results = [] ∧ r.raw_results = [] ∧
          r.row_count = 0 ∧ ∃ m, r.error_message = some m ∧ m ≠ ""))
    ∧ (∀ lr : LabResult, ∀ cm : Bool,
        execute_lab_query ldb query timeout doneInTime elapsedMs = (lr, cm) →
        (lr.success = true → lr.error_message = none) ∧
        (lr.success = false →
          lr.columns = [] ∧ lr.results = [] ∧ lr.row_count = 0 ∧
          ∃ m, lr.error_message = some m ∧ m ≠ "")) := by
  constructor
  · rcases hE : QueryExecutor.execute_query db query timeout with err | ⟨cols, results, t⟩
    · cases err with
      | unsafeQuery m =>
        have hm : m = unsafeQueryMsg := by
          unfold QueryExecutor.execute_query at hE
          by_cases hs : is_safe_query query
          · simp only [hs, not_true_eq_false, if_false] at hE
            cases db <;> simp at hE
          · simp [hs] at hE; exact hE.symm
        subst hm
        refine ⟨{ success := false, columns := [], results := [], raw_results := [],
                  execution_time_ms := 0, row_count := 0,
                  error_message := some unsafeQueryMsg }, ?_, ?_, ?_⟩
        · simp only [execute_student_query, hE]
        · simp
        · intro _
          exact ⟨rfl, rfl, rfl, rfl, unsafeQueryMsg, rfl, by decide⟩
      | queryTimeout m =>
        refine ⟨{ success := false, columns := [], results := [], raw_results := [],
                  execution_time_ms := timeout * 1000, row_count := 0,
                  error_message := some ("Query timeout: " ++ m) }, ?_, ?_, ?_⟩
        · simp only [execute_student_query, hE]
        · simp
        · intro _
          refine ⟨rfl, rfl, rfl, rfl, "Query timeout: " ++ m, rfl, ?_⟩
          intro hc
          have hd : ("Query timeout: " ++ m).data = [] := by rw [hc]
          simp [String.data_append] at hd
      | executionFailed m =>
        have hm : (∃ s, m = "SQL execution error: " ++ s) ∨
            (∃ s, m = "Unexpected error during query execution: " ++ s) := by
          unfold QueryExecutor.execute_query at hE
          by_cases hs : is_safe_query query
          · simp only [hs, not_true_eq_false, if_false] at hE
            cases db with
            | ok c r el => simp at hE
            | timesOut => simp at hE
            | sqliteError s => simp at hE; exact .inl ⟨s, hE.symm⟩
            | otherError s => simp at hE; exact .inr ⟨s, hE.symm⟩
          · simp [hs] at hE
        refine ⟨{ success := false, columns := [], results := [], raw_results := [],
                  execution_time_ms := 0, row_count := 0,
                  error_message := some m }, ?_, ?_, ?_⟩
        · simp only [execute_student_query, hE]
        · simp
        · intro _
          refine ⟨rfl, rfl, rfl, rfl, m, rfl, ?_⟩
          intro hc
          rcases hm with ⟨s, hm⟩ | ⟨s, hm⟩
          · rw [hm] at hc
            have hd : ("SQL execution error: " ++ s).data = [] := by rw [hc]
            simp [String.data_append] at hd
          · rw [hm] at hc
            have hd : ("Unexpected error during query execution: " ++ s).data = []
              := by rw [hc]
            simp [String.data_append] at hd
    · have hdb := execute_query_ok_inv db query timeout cols results t hE
      have hT : (optionTraverse (rawRowDict cols) results).isSome := by
        refine optionTraverse_isSome _ _ (fun row hrow => ?_)
        have hlen := halign cols results t hdb row hrow
        exact rawRowDictFrom_isSome row cols 0 [] (by omega)
      obtain ⟨ds, hds⟩ := Option.isSome_iff_exists.mp hT
      refine ⟨{ success := true, columns := cols, results := ds,
                raw_results := results, execution_time_ms := t,
                row_count := results.length, error_message := none }, ?_, ?_, ?_⟩
      · simp only [execute_student_query, hE, hds, Option.map_some']
      · intro _; rfl
      · intro hfalse; simp at hfalse
  · intro lr cm hL
    cases doneInTime with
    | false =>
      simp only [execute_lab_query, LabQueryExecutor.execute_query,
        Bool.not_false, if_true] at hL
      cases hL
      refine ⟨by simp, fun _ => ⟨rfl, rfl, rfl,
        "Query timeout: " ++ ("Query execution exceeded " ++ toString timeout
          ++ " seconds"), rfl, ?_⟩⟩
      intro hc
      have hd : ("Query timeout: " ++ ("Query execution exceeded "
          ++ toString timeout ++ " seconds")).data = [] := by rw [hc]
      simp [String.data_append] at hd
    | true =>
      cases ldb with
      | raises m =>
        simp only [execute_lab_query, LabQueryExecutor.execute_query,
          labWorkerRun, eq_self_iff_true, not_true, if_false] at hL
        cases hL
        refine ⟨by simp, fun _ => ⟨rfl, rfl, rfl, "SQL execution error: " ++ m, rfl, ?_⟩⟩
        intro hc
        have hd : ("SQL execution error: " ++ m).data = [] := by rw [hc]
        simp [String.data_append] at hd
      | ok cols rows =>
        by_cases hsel : strStartsWith (asciiUpper (pyStrip query)) "SELECT"
        · simp only [execute_lab_query, LabQueryExecutor.execute_query,
            labWorkerRun, hsel, if_true, eq_self_iff_true, not_true,
            if_false] at hL
          rcases hTr : optionTraverse (rawRowDict cols) rows with _ | ds
          · rw [hTr] at hL
            cases hL
            refine ⟨by simp, fun _ => ⟨rfl, rfl, rfl, _, rfl, by decide⟩⟩
          · rw [hTr] at hL
            cases hL
            exact ⟨fun _ => rfl, by simp⟩
        · simp only [execute_lab_query, LabQueryExecutor.execute_query,
            labWorkerRun, hsel, if_false, eq_self_iff_true, not_true,
            Bool.false_eq_true] at hL
          cases hL
          exact ⟨fun _ => rfl, by simp⟩

theorem executors_return_wellformed_results_witness :
    (∃ r : StudentResult,
        execute_student_query (.ok ["a"] [[.vInt 1]] 7) "SELECT 1" 5 = some r ∧
        (r.success = true → r.error_message = none) ∧
        (r.success = false →
          r.columns = [] ∧ r.results = [] ∧ r.raw_results = [] ∧
          r.row_count = 0 ∧ ∃ m, r.error_message = some m ∧ m ≠ ""))
    ∧ (∀ lr : LabResult, ∀ cm : Bool,
        execute_lab_query (.ok ["b"] []) "SELECT 1" 5 true 3 = (lr, cm) →
        (lr.success = true → lr.error_message = none) ∧
        (lr.success = false →
          lr.columns = [] ∧ lr.results = [] ∧ lr.row_count = 0 ∧
          ∃ m, lr.error_message = some m ∧ m ≠ "")) :=
  executors_return_wellformed_results (.ok ["a"] [[.vInt 1]] 7) (.ok ["b"] [])
    "SELECT 1" 5 true 3
    (by intro cols rows t h row hrow
        cases h
        simp only [List.mem_singleton] at hrow
        subst hrow
        decide)

theorem buildDatabaseFile_no_orphan (o : BuildOracle) (p : String)
    (f g : String → String) (em : String) (e : BuildErr)
    (h : (buildDatabaseFile o p f g em).outcome = .error e) :
    (buildDatabaseFile o p f g em).fileOnDisk = false := by
  unfold buildDatabaseFile at h ⊢
  cases hs : o.schemaRun with
  | fails m => simp [hs]
  | ok =>
    cases hd : o.seedRun with
    | fails m => simp [hs, hd]
    | ok =>
      by_cases ht : o.anyTable
      · simp [hs, hd, ht] at h
      · simp [hs, hd, ht]

/-- **C5.** On each build failure path — schema script fails, seed script
fails, or no table exists afterwards — `create_sqlite_from_sql` (once its
input validations pass) and `create_lab_template` raise the corresponding
generation error with the schema / seed / empty-schema message, and every
erroneous outcome of either builder leaves no database file on disk. -/
theorem create_reference_failure_paths
    (schema_sql data_sql caq : String) (o : BuildOracle) (db_path tpath : String) :
    ((∀ m, o.schemaRun = .fails m →
        (create_lab_template o tpath).outcome
            = .error (.generation ("Schema SQL execution failed: " ++ m)) ∧
        (validate_sql_statements schema_sql "schema" = none →
         validate_sql_statements data_sql "data" = none →
         validate_sql_statements caq "query" = none →
         (create_sqlite_from_sql schema_sql data_sql caq o db_path).outcome
            = .error (.generation ("Schema SQL execution failed: " ++ m))))
    ∧ (∀ m, o.schemaRun = .ok → o.seedRun = .fails m →
        (create_lab_template o tpath).outcome
            = .error (.generation ("Data SQL execution failed: " ++ m)) ∧
        (validate_sql_statements schema_sql "schema" = none →
         validate_sql_statements data_sql "data" = none →
         validate_sql_statements caq "query" = none →
         (create_sqlite_from_sql schema_sql data_sql caq o db_path).outcome
            = .error (.generation ("Data SQL execution failed: " ++ m))))
    ∧ (o.schemaRun = .ok → o.seedRun = .ok → o.anyTable = false →
        (create_lab_template o tpath).outcome
            = .error (.generation "No tables were created. Check your schema SQL.") ∧
        (validate_sql_statements schema_sql "schema" = none →
         validate_sql_statements data_sql "data" = none →
         validate_sql_statements caq "query" = none →
         (create_sqlite_from_sql schema_sql data_sql caq o db_path).outcome
            = .error (.generation "No tables were created. Check your schema SQL.")))
    ∧ (∀ e, (create_sqlite_from_sql schema_sql data_sql caq o db_path).outcome
          = .error e →
        (create_sqlite_from_sql schema_sql data_sql caq o db_path).fileOnDisk = false)
    ∧ (∀ e, (create_lab_template o tpath).outcome = .error e →
        (create_lab_template o tpath).fileOnDisk = false)) := by
  refine ⟨?_, ?_, ?_, ?_, ?_⟩
  · intro m hs
    constructor
    · simp [create_lab_template, buildDatabaseFile, hs]
    · intro hv1 hv2 hv3
      simp [create_sqlite_from_sql, hv1, hv2, hv3, buildDatabaseFile, hs]
  · intro m hs hd
    constructor
    · simp [create_lab_template, buildDatabaseFile, hs, hd]
    · intro hv1 hv2 hv3
      simp [create_sqlite_from_sql, hv1, hv2, hv3, buildDatabaseFile, hs, hd]
  · intro hs hd ht
    constructor
    · simp [create_lab_template, buildDatabaseFile, hs, hd, ht]
    · intro hv1 hv2 hv3
      simp [create_sqlite_from_sql, hv1, hv2, hv3, buildDatabaseFile, hs, hd, ht]
  · intro e he
    unfold create_sqlite_from_sql at he ⊢
    cases h1 : validate_sql_statements schema_sql "schema" with
    | some m => simp [h1]
    | none =>
      cases h2 : validate_sql_statements data_sql "data" with
      | some m => simp [h1, h2]
      | none =>
        cases h3 : validate_sql_statements caq "query" with
        | some m => simp [h1, h2, h3]
        | none =>
          simp only [h1, h2, h3] at he ⊢
          exact buildDatabaseFile_no_orphan o db_path _ _ _ e he
  · intro e he
    unfold create_lab_template at he ⊢
    exact buildDatabaseFile_no_orphan o tpath _ _ _ e he

theorem create_reference_failure_paths_witness :
    (create_sqlite_from_sql "CREATE TABLE t (a)" "INSERT INTO t VALUES (1)"
        "SELECT * FROM t"
        { schemaRun := .fails "boom", seedRun := .ok, anyTable := false }
        "q.db").outcome
      = .error (.generation ("Schema SQL execution failed: " ++ "boom")) :=
  ((create_reference_failure_paths "CREATE TABLE t (a)"
      "INSERT INTO t VALUES (1)" "SELECT * FROM t"
      { schemaRun := .fails "boom", seedRun := .ok, anyTable := false }
      "q.db" "t.db").1 "boom" rfl).2 (by decide) (by decide) (by decide)

theorem tryDeleteLoop_canonical (runs : Nat → RemoveOutcome) :
    ∀ remaining attempt, 0 < remaining →
      ∃ k, k + 1 ≤ remaining ∧
        (tryDeleteLoop runs attempt remaining).1
          = (List.replicate k
              ([.removeTry, .sleep100ms, .gcPass] : List TermEv)).join
              ++ [.removeTry] := by
  intro remaining
  induction remaining with
  | zero => intro _ h; omega
  | succ rem ih =>
    intro attempt _
    cases hr : runs attempt with
    | removed => exact ⟨0, by omega, by simp [tryDeleteLoop, hr]⟩
    | permErr m =>
      by_cases h0 : rem = 0
      · subst h0
        exact ⟨0, by omega, by simp [tryDeleteLoop, hr]⟩
      · obtain ⟨k, hk, he⟩ := ih (attempt + 1) (by omega)
        refine ⟨k + 1, by omega, ?_⟩
        simp [tryDeleteLoop, hr, h0, he, List.replicate_succ]
    | otherErr m => exact ⟨0, by omega, by simp [tryDeleteLoop, hr]⟩

theorem loopTrace_count (k : Nat) :
    List.count TermEv.removeTry
      ((List.replicate k
          [TermEv.removeTry, TermEv.sleep100ms, TermEv.gcPass]).join
        ++ [TermEv.removeTry]) = k + 1 := by
  induction k with
  | zero => rfl
  | succ n ih =>
    simp only [List.replicate_succ, List.join_cons, List.cons_append,
      List.count_cons] at ih ⊢
    simp_all

theorem loopTrace_spacing (k : Nat) :
    ∀ i : Nat,
      ((List.replicate k
          [TermEv.removeTry, TermEv.sleep100ms, TermEv.gcPass]).join
        ++ [TermEv.removeTry]).get? i = some TermEv.removeTry →
      (((List.replicate k
          [TermEv.removeTry, TermEv.sleep100ms, TermEv.gcPass]).join
        ++ [TermEv.removeTry]).get? (i + 1) = none ∨
       (((List.replicate k
           [TermEv.removeTry, TermEv.sleep100ms, TermEv.gcPass]).join
          ++ [TermEv.removeTry]).get? (i + 1) = some TermEv.sleep100ms ∧
        ((List.replicate k
           [TermEv.removeTry, TermEv.sleep100ms, TermEv.gcPass]).join
          ++ [TermEv.removeTry]).get? (i + 2) = some TermEv.gcPass)) := by
  induction k with
  | zero =>
    intro i hi
    rcases i with _ | i
    · left; rfl
    · simp at hi
  | succ n ih =>
    intro i hi
    rcases i with _ | _ | _ | i
    · right
      constructor <;> simp [List.replicate_succ]
    · simp [List.replicate_succ] at hi
    · simp [List.replicate_succ] at hi
    · simp only [List.replicate_succ, List.join_cons, List.cons_append,
        List.get?_cons_succ] at hi ⊢
      exact ih i hi

theorem cons_spacing (x : TermEv) (L : List TermEv) (hx : x ≠ TermEv.removeTry)
    (hL : ∀ i, L.get? i = some TermEv.removeTry →
      (L.get? (i + 1) = none ∨
        (L.get? (i + 1) = some TermEv.sleep100ms ∧
         L.get? (i + 2) = some TermEv.gcPass))) :
    ∀ i, (x :: L).get? i = some TermEv.removeTry →
      ((x :: L).get? (i + 1) = none ∨
        ((x :: L).get? (i + 1) = some TermEv.sleep100ms ∧
         (x :: L).get? (i + 2) = some TermEv.gcPass)) := by
  intro i hi
  rcases i with _ | i
  · simp at hi
    exact absurd hi hx
  · simp only [List.get?_cons_succ] at hi ⊢
    exact hL i hi

/-- **C6.** `terminate_session` succeeds exactly when the attempt-row
delete and the commit succeed; success leaves the session committed
inactive whatever the file deletion did, failure rolls back (the rollback
is the last event) and leaves the session active; the commit precedes
every file-deletion attempt, at most 5 deletion attempts are made, and
every attempt except a final one is followed by the 100 ms sleep and a
garbage-collection pass before the next one. -/
theorem terminate_session_spec (o : TermOracle) :
    ((terminate_session o).1 = true ↔
        (o.attemptsDeleteFails = none ∧ o.commitFails = none))
    ∧ ((terminate_session o).1 = true →
        (terminate_session o).2.isActiveCommitted = false)
    ∧ ((terminate_session o).1 = false →
        (terminate_session o).2.isActiveCommitted = true ∧
        (terminate_session o).2.fileDeleted = false ∧
        (terminate_session o).2.events.getLast? = some TermEv.rollbackEv)
    ∧ (∀ i, (terminate_session o).2.events.get? i = some TermEv.removeTry →
        ∃ j, j < i ∧
          (terminate_session o).2.events.get? j = some TermEv.commitEv)
    ∧ (List.count TermEv.removeTry (terminate_session o).2.events ≤ 5)
    ∧ (∀ i, (terminate_session o).2.events.get? i = some TermEv.removeTry →
        ((terminate_session o).2.events.get? (i + 1) = none ∨
          ((terminate_session o).2.events.get? (i + 1)
              = some TermEv.sleep100ms ∧
           (terminate_session o).2.events.get? (i + 2)
              = some TermEv.gcPass))) := by
  cases hA : o.attemptsDeleteFails with
  | some a =>
    refine ⟨by simp [terminate_session, hA], by simp [terminate_session, hA],
      fun _ => ⟨by simp [terminate_session, hA], by simp [terminate_session, hA],
        by simp [terminate_session, hA]⟩, ?_, by simp [terminate_session, hA], ?_⟩
    · intro i hi
      simp only [terminate_session, hA] at hi
      rcases i with _ | i <;> simp at hi
    · intro i hi
      simp only [terminate_session, hA] at hi
      rcases i with _ | i <;> simp at hi
  | none =>
    cases hC : o.commitFails with
    | some c =>
      refine ⟨by simp [terminate_session, hA, hC],
        by simp [terminate_session, hA, hC],
        fun _ => ⟨by simp [terminate_session, hA, hC],
          by simp [terminate_session, hA, hC],
          by simp [terminate_session, hA, hC]⟩, ?_,
        by simp [terminate_session, hA, hC], ?_⟩
      · intro i hi
        simp only [terminate_session, hA, hC] at hi
        rcases i with _ | _ | i <;> simp at hi
      · intro i hi
        simp only [terminate_session, hA, hC] at hi
        rcases i with _ | _ | i <;> simp at hi
    | none =>
      by_cases hF : o.fileOnDisk
      · obtain ⟨k, hk, he⟩ :=
          tryDeleteLoop_canonical o.removeRuns 5 0 (by omega)
        have hev : (terminate_session o).2.events
            = TermEv.attemptsDeleted :: TermEv.commitEv :: TermEv.gcPass ::
              ((List.replicate k
                  [TermEv.removeTry, TermEv.sleep100ms, TermEv.gcPass]).join
                ++ [TermEv.removeTry]) := by
          simp [terminate_session, hA, hC, hF, he]
        refine ⟨by simp [terminate_session, hA, hC, hF],
          by simp [terminate_session, hA, hC, hF],
          by simp [terminate_session, hA, hC, hF], ?_, ?_, ?_⟩
        · intro i hi
          rw [hev] at hi ⊢
          rcases i with _ | _ | _ | i
          · simp at hi
          · simp at hi
          · simp at hi
          · exact ⟨1, by omega, by simp⟩
        · rw [hev]
          simp only [List.count_cons]
          have := loopTrace_count k
          simp only [this]
          have h1 : (TermEv.removeTry == TermEv.attemptsDeleted) = false := by decide
          have h2 : (TermEv.removeTry == TermEv.commitEv) = false := by decide
          have h3 : (TermEv.removeTry == TermEv.gcPass) = false := by decide
          simp [h1, h2, h3]
          omega
        · rw [hev]
          refine cons_spacing _ _ (by decide)
            (cons_spacing _ _ (by decide)
              (cons_spacing _ _ (by decide) (loopTrace_spacing k)))
      · refine ⟨by simp [terminate_session, hA, hC, hF],
          by simp [terminate_session, hA, hC, hF],
          by simp [terminate_session, hA, hC, hF], ?_,
          by simp [terminate_session, hA, hC, hF], ?_⟩
        · intro i hi
          simp only [terminate_session, hA, hC, hF] at hi
          rcases i with _ | _ | _ | i <;> simp at hi
        · intro i hi
          simp only [terminate_session, hA, hC, hF] at hi
          rcases i with _ | _ | _ | i <;> simp at hi

theorem terminate_session_spec_witness :
    (terminate_session ⟨none, none, true,
      fun n => if n = 0 then RemoveOutcome.permErr "locked"
        else RemoveOutcome.removed⟩).1 = true :=
  (terminate_session_spec ⟨none, none, true,
    fun n => if n = 0 then RemoveOutcome.permErr "locked"
      else RemoveOutcome.removed⟩).1.mpr ⟨rfl, rfl⟩

/-- **C7.** When the worker thread has not completed within the configured
timeout, `execute_lab_query` returns a timeout result — `success = False`
with the `"Query timeout: ..."` message — whose reported
`execution_time_ms` is the configured bound `timeout * 1000`, independent
of the statement's actual runtime. -/
theorem lab_timeout_reports_configured_bound
    (db : LabDbOutcome) (query : String) (timeout elapsedMs : Nat) :
    (execute_lab_query db query timeout false elapsedMs).1
      = { success := false, columns := [], results := [],
          execution_time_ms := timeout * 1000, row_count := 0,
          error_message := some ("Query timeout: " ++
            ("Query execution exceeded " ++ toString timeout
              ++ " seconds")) } := by
  simp [execute_lab_query, LabQueryExecutor.execute_query]

theorem lab_timeout_reports_configured_bound_witness :
    (execute_lab_query (.ok ["a"] []) "UPDATE t SET a = 1" 3 false 999999).1
      = { success := false, columns := [], results := [],
          execution_time_ms := 3 * 1000, row_count := 0,
          error_message := some ("Query timeout: " ++
            ("Query execution exceeded " ++ toString 3 ++ " seconds")) } :=
  lab_timeout_reports_configured_bound (.ok ["a"] []) "UPDATE t SET a = 1" 3
    999999

/-- **C8.** When the worker completes in time without error: a statement
whose stripped uppercase form begins with `SELECT` returns the fetched
column names and row dicts without committing, and every other statement
kind commits and returns `success = True` with zero columns and zero
rows. -/
theorem lab_statement_kind_handling
    (cols : List String) (rows : List (List PyVal)) (query : String)
    (timeout elapsedMs : Nat)
    (halign : ∀ row ∈ rows, cols.length ≤ row.length) :
    (strStartsWith (asciiUpper (pyStrip query)) "SELECT" = true →
      ∃ ds, optionTraverse (rawRowDict cols) rows = some ds ∧
        execute_lab_query (.ok cols rows) query timeout true elapsedMs
          = ({ success := true, columns := cols, results := ds,
               execution_time_ms := elapsedMs, row_count := rows.length,
               error_message := none }, false))
    ∧ (strStartsWith (asciiUpper (pyStrip query)) "SELECT" = false →
        execute_lab_query (.ok cols rows) query timeout true elapsedMs
          = ({ success := true, columns := [], results := [],
               execution_time_ms := elapsedMs, row_count := 0,
               error_message := none }, true)) := by
  constructor
  · intro hsel
    have hT : (optionTraverse (rawRowDict cols) rows).isSome := by
      refine optionTraverse_isSome _ _ (fun row hrow => ?_)
      exact rawRowDictFrom_isSome row cols 0 [] (by have := halign row hrow; omega)
    obtain ⟨ds, hds⟩ := Option.isSome_iff_exists.mp hT
    refine ⟨ds, hds, ?_⟩
    simp [execute_lab_query, LabQueryExecutor.execute_query, labWorkerRun,
      hsel, hds]
  · intro hsel
    simp [execute_lab_query, LabQueryExecutor.execute_query, labWorkerRun,
      hsel, optionTraverse]

theorem lab_statement_kind_handling_witness :
    (∀ row ∈ [[PyVal.vInt 1]], List.length ["a"] ≤ row.length) ∧
    (∃ ds, optionTraverse (rawRowDict ["a"]) [[PyVal.vInt 1]] = some ds ∧
      execute_lab_query (.ok ["a"] [[PyVal.vInt 1]]) "SELECT a" 5 true 3
        = ({ success := true, columns := ["a"], results := ds,
             execution_time_ms := 3, row_count := [[PyVal.vInt 1]].length,
             error_message := none }, false)) :=
  ⟨by decide,
    (lab_statement_kind_handling ["a"] [[PyVal.vInt 1]] "SELECT a" 5 3
      (by decide)).1 (by decide)⟩
